import Mathlib

/-!
Verification of the voxel-world core (chunked terrain, greedy meshing,
Source-style movement) against its specification.

The JavaScript sources are shallowly embedded:
* machine numbers (JS doubles) are idealised as `ℚ` where the code computes
  with fractional values, and as `Int`/`Nat` where the code computes with
  integers (array indices, block ids, voxel coordinates);
* the `Uint8Array` chunk store is a total function `Nat → Nat`, with the
  JS `ToUint8` coercion (`value mod 256`) applied on write;
* the JS object `chunks` keyed by the string `"x,z"` is a map
  `Int × Int → Option ChunkBlocks` (the string keys are in bijection with
  the coordinate pairs);
* `Math.random()` is an explicit stream `Nat → ℚ` of draws consumed in
  program order, with a draw counter threaded through generation;
* `Math.sqrt` (used only by `applyFriction` via `velocity.length()`) is an
  abstract parameter `sqrtFn : ℚ → ℚ`.
-/

/-! ### Configuration constants (js/game/config.js) -/

def CHUNK_SIZE : Nat := 16

def WORLD_HEIGHT : Nat := 64

/-- Keys of the `BLOCKS` object literal in config.js, together with `water`,
a key that the literal does *not* define (player.js nevertheless reads
`BLOCKS.water`, obtaining `undefined`). -/
inductive BlockKey where
  | air | stone | cobblestone | dirt | grass | logs | leaves | planks
  | glass | bricks | water
deriving DecidableEq

/-- The `BLOCKS` object literal: a lookup returning `none` for the absent
`water` key, mirroring JS property access returning `undefined`. -/
def BLOCKS : BlockKey → Option Nat
  | .air => some 0
  | .stone => some 1
  | .cobblestone => some 2
  | .dirt => some 3
  | .grass => some 4
  | .logs => some 5
  | .leaves => some 6
  | .planks => some 7
  | .glass => some 8
  | .bricks => some 9
  | .water => none

/-- The ten values of the block-type enumeration. -/
def blockTypeValues : List Int := [0, 1, 2, 3, 4, 5, 6, 7, 8, 9]

/-! ### Chunk store (js/game/world.js) -/

/-- A chunk's dense block grid: the `Uint8Array` of length
`CHUNK_SIZE * WORLD_HEIGHT * CHUNK_SIZE`, as a total function from the
row-major index `x + z*CHUNK_SIZE + y*CHUNK_SIZE^2` to the stored byte. -/
abbrev ChunkBlocks := Nat → Nat

/-- The module-level `chunks` object: chunk coordinate to stored grid. -/
abbrev ChunksMap := Int × Int → Option ChunkBlocks

/-- JS `x % n` on integers is the truncated remainder; the world code uses
`((x % CHUNK_SIZE) + CHUNK_SIZE) % CHUNK_SIZE` to obtain a positive-result
modulo. -/
def jsPosMod (x : Int) (n : Int) : Int := (x.tmod n + n).tmod n

/-- `Math.floor(x / CHUNK_SIZE)` on an integer world coordinate: floor
division (exact: magnitudes stay far below 2^53). -/
def chunkCoordOf (x : Int) : Int := x.fdiv (CHUNK_SIZE : Int)

/-- `getBlock(x, y, z)` (world.js). Out-of-range `y` is air; a missing
chunk is air. The trailing `|| BLOCKS.air` in the source only guards
out-of-bounds typed-array reads, which cannot occur since the computed
index is always in range; the stored byte is returned unchanged. -/
def getBlock (chunks : ChunksMap) (x y z : Int) : Int :=
  if y < 0 ∨ (WORLD_HEIGHT : Int) ≤ y then (0 : Int)
  else
    match chunks (chunkCoordOf x, chunkCoordOf z) with
    | none => 0
    | some blocks =>
      let localX := jsPosMod x (CHUNK_SIZE : Int)
      let localZ := jsPosMod z (CHUNK_SIZE : Int)
      let index := localX + localZ * (CHUNK_SIZE : Int)
        + y * (CHUNK_SIZE : Int) * (CHUNK_SIZE : Int)
      (blocks index.toNat : Int)

/-- `setBlock(x, y, z, blockType)` (world.js), parameterised by the chunk
generator `gen` used when the owning chunk is absent (the source calls
`generateChunk`, which reads the seeded noise closure and `Math.random`;
any freshly generated grid is immediately overwritten at the target index,
so the theorems below hold for every generator).  Writing into the
`Uint8Array` applies the JS `ToUint8` conversion, i.e. reduction mod 256.
Only the block grids are modelled; the dirty-flag bookkeeping on the chunk
and its neighbours does not touch any grid. -/
def setBlock (gen : Int → Int → ChunkBlocks) (chunks : ChunksMap)
    (x y z : Int) (blockType : Int) : ChunksMap :=
  if y < 0 ∨ (WORLD_HEIGHT : Int) ≤ y then chunks
  else
    let cx := chunkCoordOf x
    let cz := chunkCoordOf z
    let blocks := match chunks (cx, cz) with
      | some b => b
      | none => gen cx cz
    let localX := jsPosMod x (CHUNK_SIZE : Int)
    let localZ := jsPosMod z (CHUNK_SIZE : Int)
    let index := localX + localZ * (CHUNK_SIZE : Int)
      + y * (CHUNK_SIZE : Int) * (CHUNK_SIZE : Int)
    let blocks' : ChunkBlocks :=
      fun i => if i = index.toNat then (blockType % 256).toNat else blocks i
    fun key => if key = (cx, cz) then some blocks' else chunks key

/-- C1: after an in-range `setBlock(x,y,z,T)` with `T` a block-enumeration
value, `getBlock(x,y,z)` returns `T`; for out-of-range `y`, `setBlock`
leaves the store unchanged and `getBlock` returns air. -/
theorem setBlock_getBlock_roundtrip (gen : Int → Int → ChunkBlocks)
    (chunks : ChunksMap) (x y z T : Int) (hT : T ∈ blockTypeValues) :
    (¬ (y < 0 ∨ (WORLD_HEIGHT : Int) ≤ y) →
      getBlock (setBlock gen chunks x y z T) x y z = T)
    ∧ ((y < 0 ∨ (WORLD_HEIGHT : Int) ≤ y) →
      setBlock gen chunks x y z T = chunks ∧ getBlock chunks x y z = 0) := by
  constructor
  · intro hy
    have hmod : T % 256 = T := by
      fin_cases hT <;> decide
    simp only [getBlock, setBlock, if_neg hy]
    simp [hmod]
    fin_cases hT <;> decide
  · intro hy
    constructor
    · simp only [setBlock, if_pos hy]
    · simp only [getBlock, if_pos hy]

theorem setBlock_getBlock_roundtrip_witness :
    ((7 : Int) ∈ blockTypeValues)
    ∧ (¬ ((5 : Int) < 0 ∨ (WORLD_HEIGHT : Int) ≤ 5) →
        getBlock (setBlock (fun _ _ _ => 0) (fun _ => none) 3 5 (-2) 7) 3 5 (-2) = 7)
    ∧ (((-1 : Int) < 0 ∨ (WORLD_HEIGHT : Int) ≤ -1) →
        setBlock (fun _ _ _ => 0) (fun _ => none) 3 (-1) (-2) 7 = (fun _ => none)
        ∧ getBlock (fun _ => none) 3 (-1) (-2) = 0) :=
  ⟨by decide,
   (setBlock_getBlock_roundtrip (fun _ _ _ => 0) (fun _ => none) 3 5 (-2) 7 (by decide)).1,
   (setBlock_getBlock_roundtrip (fun _ _ _ => 0) (fun _ => none) 3 (-1) (-2) 7 (by decide)).2⟩

/-- C9: the chunk store is an unsigned 8-bit array, so the set/get round
trip on an in-range cell returns `T mod 256`, which equals `T` exactly
when `0 ≤ T ≤ 255`. -/
theorem setBlock_getBlock_mod256 (gen : Int → Int → ChunkBlocks)
    (chunks : ChunksMap) (x y z T : Int)
    (hy : ¬ (y < 0 ∨ (WORLD_HEIGHT : Int) ≤ y)) :
    getBlock (setBlock gen chunks x y z T) x y z = T % 256
    ∧ (T % 256 = T ↔ 0 ≤ T ∧ T ≤ 255) := by
  constructor
  · simp only [getBlock, setBlock, if_neg hy]
    simp
    omega
  · omega

theorem setBlock_getBlock_mod256_witness :
    (¬ ((5 : Int) < 0 ∨ (WORLD_HEIGHT : Int) ≤ 5))
    ∧ (getBlock (setBlock (fun _ _ _ => 0) (fun _ => none) 0 5 0 300) 0 5 0
        = (300 : Int) % 256
      ∧ ((300 : Int) % 256 = 300 ↔ 0 ≤ (300 : Int) ∧ (300 : Int) ≤ 255)) :=
  ⟨by decide, setBlock_getBlock_mod256 (fun _ _ _ => 0) (fun _ => none) 0 5 0 300 (by decide)⟩

/-! ### Exact rationals for JS number arithmetic

Core `Rat` arithmetic does not reduce inside the kernel, so the JS double
arithmetic is embedded through an executable fraction type `Q` (no gcd
normalisation; the denominator is kept positive).  `Q.toRat` interprets a
fraction as the rational it denotes; the arithmetic operations commute
with `toRat`, and comparisons/floor agree with the rational ones, so all
order-theoretic reasoning happens in `ℚ`. -/

structure Q where
  num : Int
  den : Nat
  dpos : 0 < den

/-- Build the fraction `n / d` (a positive `d` is expected; `d = 0` falls
back to denominator 1, a case never used below). -/
def qq (n : Int) (d : Nat) : Q :=
  if h : 0 < d then ⟨n, d, h⟩ else ⟨n, 1, one_pos⟩

def Q.ofInt (n : Int) : Q := ⟨n, 1, one_pos⟩

def Q.add (a b : Q) : Q :=
  ⟨a.num * b.den + b.num * a.den, a.den * b.den, Nat.mul_pos a.dpos b.dpos⟩

def Q.sub (a b : Q) : Q :=
  ⟨a.num * b.den - b.num * a.den, a.den * b.den, Nat.mul_pos a.dpos b.dpos⟩

def Q.mul (a b : Q) : Q :=
  ⟨a.num * b.num, a.den * b.den, Nat.mul_pos a.dpos b.dpos⟩

def Q.neg (a : Q) : Q := ⟨-a.num, a.den, a.dpos⟩

/-- JS `/` (used only by `applyFriction` on a provably nonzero divisor;
division by zero is given an arbitrary value). -/
def Q.div (a b : Q) : Q :=
  if hz : b.num = 0 then Q.ofInt 0
  else
    ⟨(if b.num < 0 then -(a.num * (b.den : Int)) else a.num * (b.den : Int)),
      a.den * b.num.natAbs,
      Nat.mul_pos a.dpos (Int.natAbs_pos.mpr hz)⟩

/-- Value order `a < b` (cross multiplication; denominators positive). -/
def Q.lt (a b : Q) : Prop := a.num * b.den < b.num * a.den

def Q.le (a b : Q) : Prop := a.num * b.den ≤ b.num * a.den

/-- Value equality (JS `===` on numbers). -/
def Q.qeq (a b : Q) : Prop := a.num * b.den = b.num * a.den

instance (a b : Q) : Decidable (Q.lt a b) := inferInstanceAs (Decidable (_ < _))

instance (a b : Q) : Decidable (Q.le a b) := inferInstanceAs (Decidable (_ ≤ _))

instance (a b : Q) : Decidable (Q.qeq a b) := inferInstanceAs (Decidable (_ = _))

/-- `Math.floor` on an exact fraction. -/
def Q.floorQ (a : Q) : Int := a.num.fdiv a.den

/-- `Math.max(0, ·)` as used by `applyFriction`. -/
def Q.max0 (a : Q) : Q := if Q.lt a (Q.ofInt 0) then Q.ofInt 0 else a

/-- The rational a fraction denotes. -/
def Q.toRat (a : Q) : ℚ := (a.num : ℚ) / (a.den : ℚ)

theorem Q.den_ne (a : Q) : ((a.den : ℚ)) ≠ 0 := by
  exact_mod_cast Nat.pos_iff_ne_zero.mp a.dpos

theorem Q.toRat_ofInt (n : Int) : (Q.ofInt n).toRat = (n : ℚ) := by
  simp [Q.ofInt, Q.toRat]

theorem Q.toRat_qq (n : Int) (d : Nat) (h : 0 < d) :
    (qq n d).toRat = (n : ℚ) / (d : ℚ) := by
  simp [qq, h, Q.toRat]

theorem Q.toRat_add (a b : Q) : (a.add b).toRat = a.toRat + b.toRat := by
  have ha := a.den_ne
  have hb := b.den_ne
  simp only [Q.add, Q.toRat]
  push_cast
  field_simp

theorem Q.toRat_sub (a b : Q) : (a.sub b).toRat = a.toRat - b.toRat := by
  have ha := a.den_ne
  have hb := b.den_ne
  simp only [Q.sub, Q.toRat]
  push_cast
  field_simp
  ring

theorem Q.toRat_mul (a b : Q) : (a.mul b).toRat = a.toRat * b.toRat := by
  have ha := a.den_ne
  have hb := b.den_ne
  simp only [Q.mul, Q.toRat]
  push_cast [div_mul_div_comm]
  ring

theorem Q.toRat_neg (a : Q) : (a.neg).toRat = -a.toRat := by
  simp [Q.neg, Q.toRat, neg_div]

theorem Q.lt_iff (a b : Q) : Q.lt a b ↔ a.toRat < b.toRat := by
  have ha : (0 : ℚ) < (a.den : ℚ) := by exact_mod_cast a.dpos
  have hb : (0 : ℚ) < (b.den : ℚ) := by exact_mod_cast b.dpos
  rw [Q.lt, Q.toRat, Q.toRat, div_lt_div_iff₀ ha hb]
  constructor
  · intro h; exact_mod_cast h
  · intro h; exact_mod_cast h

theorem Q.le_iff (a b : Q) : Q.le a b ↔ a.toRat ≤ b.toRat := by
  have ha : (0 : ℚ) < (a.den : ℚ) := by exact_mod_cast a.dpos
  have hb : (0 : ℚ) < (b.den : ℚ) := by exact_mod_cast b.dpos
  rw [Q.le, Q.toRat, Q.toRat, div_le_div_iff₀ ha hb]
  constructor
  · intro h; exact_mod_cast h
  · intro h; exact_mod_cast h

theorem Q.qeq_iff (a b : Q) : Q.qeq a b ↔ a.toRat = b.toRat := by
  have ha := a.den_ne
  have hb := b.den_ne
  rw [Q.qeq, Q.toRat, Q.toRat, div_eq_div_iff ha hb]
  constructor
  · intro h; exact_mod_cast h
  · intro h; exact_mod_cast h

theorem Q.floorQ_eq (a : Q) : a.floorQ = ⌊a.toRat⌋ := by
  have hd : (0 : Int) ≤ (a.den : Int) := by positivity
  rw [Q.floorQ, Q.toRat, Rat.floor_intCast_div_natCast, Int.fdiv_eq_ediv _ hd]

/-! ### Player movement (js/game/player.js) -/

/-- A `THREE.Vector3` of JS numbers. -/
structure Vec3 where
  x : Q
  y : Q
  z : Q

def Vec3.add (a b : Vec3) : Vec3 := ⟨a.x.add b.x, a.y.add b.y, a.z.add b.z⟩

def Vec3.dot (a b : Vec3) : Q :=
  ((a.x.mul b.x).add (a.y.mul b.y)).add (a.z.mul b.z)

def Vec3.scale (a : Vec3) (s : Q) : Vec3 := ⟨a.x.mul s, a.y.mul s, a.z.mul s⟩

/-- Componentwise value equality of vectors. -/
def Vec3.qeq (a b : Vec3) : Prop := a.x.qeq b.x ∧ a.y.qeq b.y ∧ a.z.qeq b.z

instance (a b : Vec3) : Decidable (Vec3.qeq a b) :=
  inferInstanceAs (Decidable (_ ∧ _ ∧ _))

/-- Movement constants from player.js. -/
def GRAVITY : Q := qq 1 100

def MAX_SPEED_GROUND : Q := qq 3 10

def ACCEL_GROUND : Q := qq 2 10

def FRICTION : Q := qq 2 10

def PLAYER_WIDTH : Q := qq 6 10

def PLAYER_HEIGHT : Q := qq 18 10

/-- `accelerate(wishDir, wishSpeed, accel)` (player.js): returns the
updated velocity. -/
def accelerate (velocity wishDir : Vec3) (wishSpeed accel : Q) : Vec3 :=
  let currentSpeed := velocity.dot wishDir
  let addSpeed := wishSpeed.sub currentSpeed
  if addSpeed.le (Q.ofInt 0) then velocity
  else
    let accelSpeed0 := accel.mul wishSpeed
    let accelSpeed := if addSpeed.lt accelSpeed0 then addSpeed else accelSpeed0
    velocity.add (wishDir.scale accelSpeed)

/-- `applyFriction()` (player.js); `velocity.length()` is
`Math.sqrt(x^2 + y^2 + z^2)` and `Math.sqrt` is the abstract `sqrtFn`. -/
def applyFriction (sqrtFn : Q → Q) (velocity : Vec3) : Vec3 :=
  let speed := sqrtFn (((velocity.x.mul velocity.x).add
    (velocity.y.mul velocity.y)).add (velocity.z.mul velocity.z))
  if speed.lt (qq 1 1000) then { velocity with x := Q.ofInt 0, z := Q.ofInt 0 }
  else
    let control := if speed.lt FRICTION then FRICTION else speed
    let drop := control.mul FRICTION
    let newSpeed := (speed.sub drop).max0
    if ¬ newSpeed.qeq speed then
      let scale := newSpeed.div speed
      { velocity with x := velocity.x.mul scale, z := velocity.z.mul scale }
    else velocity

/-- Lines 119-121 of player.js (the grounded branch before the jump
check): friction, then ground acceleration. -/
def groundTickVelocity (sqrtFn : Q → Q) (velocity wishDir : Vec3) : Vec3 :=
  accelerate (applyFriction sqrtFn velocity) wishDir MAX_SPEED_GROUND ACCEL_GROUND

/-- The acceleration step exactly as the specification words it:
`currentSpeed = velocity · wishDir`, `addSpeed = wishSpeed − currentSpeed`;
no change when `addSpeed ≤ 0`, else add `wishDir · min(accel·wishSpeed,
addSpeed)`. -/
def specAccelerate (velocity wishDir : Vec3) (wishSpeed accel : Q) : Vec3 :=
  let currentSpeed := velocity.dot wishDir
  let addSpeed := wishSpeed.sub currentSpeed
  if addSpeed.le (Q.ofInt 0) then velocity
  else
    let m := if (accel.mul wishSpeed).le addSpeed then accel.mul wishSpeed
      else addSpeed
    velocity.add (wishDir.scale m)

/-- C2: `accelerate` is exactly the specification's formula, and a
grounded tick from rest with `wishDir = (1,0,0)`, `maxSpeed = 0.3`,
`accel = 0.2` yields velocity `(0.06, 0, 0)` after friction and
acceleration (`Math.sqrt 0 = 0` is the only property of `sqrtFn` used:
the hypothesis accepts any fraction denoting 0). -/
theorem accelerate_spec_and_ground_tick (sqrtFn : Q → Q)
    (hsq : ∀ a : Q, a.num = 0 → (sqrtFn a).num = 0) :
    (∀ (velocity wishDir : Vec3) (wishSpeed accel : Q),
      accelerate velocity wishDir wishSpeed accel
        = specAccelerate velocity wishDir wishSpeed accel)
    ∧ Vec3.qeq
        (groundTickVelocity sqrtFn ⟨Q.ofInt 0, Q.ofInt 0, Q.ofInt 0⟩
          ⟨Q.ofInt 1, Q.ofInt 0, Q.ofInt 0⟩)
        ⟨qq 6 100, Q.ofInt 0, Q.ofInt 0⟩ := by
  constructor
  · intro velocity wishDir wishSpeed accel
    simp only [accelerate, specAccelerate]
    split
    · rfl
    · congr 1
      simp only [Q.lt, Q.le]
      split
      · rw [if_neg (by omega)]
      · rw [if_pos (by omega)]
  · have h0 : (sqrtFn (((((Q.ofInt 0).mul (Q.ofInt 0)).add
        ((Q.ofInt 0).mul (Q.ofInt 0))).add ((Q.ofInt 0).mul (Q.ofInt 0))))).num = 0 := by
      apply hsq
      decide
    have hlt : ∀ s : Q, s.num = 0 → s.lt (qq 1 1000) := by
      intro s h
      rw [Q.lt, h]
      have hd := s.dpos
      simp [qq]
      omega
    simp only [groundTickVelocity, applyFriction]
    rw [if_pos (hlt _ h0)]
    decide

theorem accelerate_spec_and_ground_tick_witness :
    (∀ a : Q, a.num = 0 → ((fun _ : Q => Q.ofInt 0) a).num = 0)
    ∧ ((∀ (velocity wishDir : Vec3) (wishSpeed accel : Q),
        accelerate velocity wishDir wishSpeed accel
          = specAccelerate velocity wishDir wishSpeed accel)
      ∧ Vec3.qeq
          (groundTickVelocity (fun _ : Q => Q.ofInt 0)
            ⟨Q.ofInt 0, Q.ofInt 0, Q.ofInt 0⟩ ⟨Q.ofInt 1, Q.ofInt 0, Q.ofInt 0⟩)
          ⟨qq 6 100, Q.ofInt 0, Q.ofInt 0⟩) :=
  ⟨fun _ _ => rfl,
   accelerate_spec_and_ground_tick (fun _ : Q => Q.ofInt 0) (fun _ _ => rfl)⟩

/-- The integers from `a` to `b` inclusive (the `for` loops of the
collision probes). -/
def intRange (a b : Int) : List Int :=
  (List.range (b + 1 - a).toNat).map (fun k => a + (k : Int))

/-- JS `block !== v` where `block` is a number and `v` is a property
lookup that may be `undefined`: comparing a number against `undefined`
with `!==` is always true. -/
def jsNeqNum (block : Int) (v : Option Nat) : Bool :=
  match v with
  | none => true
  | some n => decide (block ≠ (n : Int))

/-- The floor-probe test of the Y-collision pass (player.js line 157):
`block !== BLOCKS.air && block !== BLOCKS.water`. -/
def floorHitTest (block : Int) : Bool :=
  jsNeqNum block (BLOCKS .air) && jsNeqNum block (BLOCKS .water)

theorem floorHitTest_eq (block : Int) :
    floorHitTest block = decide (block ≠ 0) := by
  simp [floorHitTest, jsNeqNum, BLOCKS]

/-- C10: `BLOCKS` defines no `water` entry, so the water comparison in the
floor probe tests against `undefined` and never excludes any block; every
non-air block — glass and leaves included — counts as solid ground. -/
theorem floorProbe_water_undefined :
    BLOCKS .water = none
    ∧ (∀ block : Int, floorHitTest block = true ↔ block ≠ 0)
    ∧ floorHitTest 8 = true ∧ floorHitTest 6 = true := by
  refine ⟨rfl, ?_, by decide, by decide⟩
  intro block
  rw [floorHitTest_eq]
  simp

/-- Player state: position (feet), velocity, grounded flag. -/
structure PState where
  pos : Vec3
  vel : Vec3
  onGround : Bool

/-- Half of `player.width`; the AABB of `setFromCenterAndSize` spans
`position ± width/2` horizontally and `[newPosition.y, newPosition.y +
height]` vertically (the `+ height/2 − height/2` round trip on the
box centre is exact). -/
def halfWidth : Q := PLAYER_WIDTH.mul (qq 1 2)

/-- The Y-axis collision pass of `updatePlayer` (player.js lines 138-167):
`newPosition = position + velocity`, `onGround` reset to false, the floor
probed at `feetY = floor(newPosition.y)` across all spanned columns when
`velocity.y ≤ 0`, and finally `position.y = newPosition.y`.  The double
`for` loop breaks out at the first solid probe, and the effect of a hit
(`velocity.y = 0`, `newPosition.y = feetY + 1`, `onGround = true`) does
not depend on which column hit, so it is rendered by an existence test. -/
def yCollisionPass (chunks : ChunksMap) (s : PState) : PState :=
  let newPosY := s.pos.y.add s.vel.y
  if s.vel.y.le (Q.ofInt 0) then
    let feetY := newPosY.floorQ
    let startX := (s.pos.x.sub halfWidth).floorQ
    let endX := (s.pos.x.add halfWidth).floorQ
    let startZ := (s.pos.z.sub halfWidth).floorQ
    let endZ := (s.pos.z.add halfWidth).floorQ
    if (intRange startX endX).any (fun xi =>
        (intRange startZ endZ).any (fun zi =>
          floorHitTest (getBlock chunks xi feetY zi)))
    then { pos := { s.pos with y := Q.ofInt (feetY + 1) },
           vel := { s.vel with y := Q.ofInt 0 },
           onGround := true }
    else { pos := { s.pos with y := newPosY }, vel := s.vel, onGround := false }
  else { pos := { s.pos with y := newPosY }, vel := s.vel, onGround := false }

/-- C5: the Y pass probes only when `velocity.y ≤ 0`; a solid probe under
the tentative AABB bottom zeroes `velocity.y`, snaps `position.y` to the
hit cell's y plus 1 and grounds the player; otherwise `onGround` ends the
pass false (it is reset each tick, never sticky) and the position falls
by `velocity.y`. -/
theorem yCollisionPass_spec (chunks : ChunksMap) (s : PState) :
    (s.vel.y.le (Q.ofInt 0) →
      (∃ xi ∈ intRange ((s.pos.x.sub halfWidth).floorQ)
          ((s.pos.x.add halfWidth).floorQ),
        ∃ zi ∈ intRange ((s.pos.z.sub halfWidth).floorQ)
          ((s.pos.z.add halfWidth).floorQ),
        getBlock chunks xi ((s.pos.y.add s.vel.y).floorQ) zi ≠ 0) →
      yCollisionPass chunks s =
        ⟨⟨s.pos.x, Q.ofInt ((s.pos.y.add s.vel.y).floorQ + 1), s.pos.z⟩,
         ⟨s.vel.x, Q.ofInt 0, s.vel.z⟩, true⟩)
    ∧ (s.vel.y.le (Q.ofInt 0) →
      (¬ ∃ xi ∈ intRange ((s.pos.x.sub halfWidth).floorQ)
          ((s.pos.x.add halfWidth).floorQ),
        ∃ zi ∈ intRange ((s.pos.z.sub halfWidth).floorQ)
          ((s.pos.z.add halfWidth).floorQ),
        getBlock chunks xi ((s.pos.y.add s.vel.y).floorQ) zi ≠ 0) →
      yCollisionPass chunks s =
        ⟨⟨s.pos.x, s.pos.y.add s.vel.y, s.pos.z⟩, s.vel, false⟩)
    ∧ (¬ s.vel.y.le (Q.ofInt 0) →
      yCollisionPass chunks s =
        ⟨⟨s.pos.x, s.pos.y.add s.vel.y, s.pos.z⟩, s.vel, false⟩) := by
  have hany : (intRange ((s.pos.x.sub halfWidth).floorQ)
        ((s.pos.x.add halfWidth).floorQ)).any (fun xi =>
        (intRange ((s.pos.z.sub halfWidth).floorQ)
          ((s.pos.z.add halfWidth).floorQ)).any (fun zi =>
          floorHitTest (getBlock chunks xi ((s.pos.y.add s.vel.y).floorQ) zi)))
      = true
      ↔ (∃ xi ∈ intRange ((s.pos.x.sub halfWidth).floorQ)
          ((s.pos.x.add halfWidth).floorQ),
        ∃ zi ∈ intRange ((s.pos.z.sub halfWidth).floorQ)
          ((s.pos.z.add halfWidth).floorQ),
        getBlock chunks xi ((s.pos.y.add s.vel.y).floorQ) zi ≠ 0) := by
    simp only [List.any_eq_true, floorHitTest_eq, decide_eq_true_eq]
  refine ⟨?_, ?_, ?_⟩
  · intro hv hhit
    simp only [yCollisionPass, if_pos hv, if_pos (hany.mpr hhit)]
  · intro hv hmiss
    have : ¬ ((intRange ((s.pos.x.sub halfWidth).floorQ)
        ((s.pos.x.add halfWidth).floorQ)).any (fun xi =>
        (intRange ((s.pos.z.sub halfWidth).floorQ)
          ((s.pos.z.add halfWidth).floorQ)).any (fun zi =>
          floorHitTest (getBlock chunks xi ((s.pos.y.add s.vel.y).floorQ) zi)))
        = true) := fun h => hmiss (hany.mp h)
    simp only [yCollisionPass, if_pos hv, if_neg this]
  · intro hv
    simp only [yCollisionPass, if_neg hv]

/-- The concrete world of the C5 scenario: a single chunk at (0,0) whose
only solid cell is stone at world coordinate (0, 9, 0). -/
def c5Chunks : ChunksMap :=
  fun key => if key = ((0 : Int), (0 : Int))
    then some (fun i => if i = 2304 then 1 else 0) else none

/-- The concrete player of the C5 scenario: feet at y = 10 over the block,
velocity.y = −0.01 after gravity. -/
def c5State : PState :=
  ⟨⟨qq 1 2, Q.ofInt 10, qq 1 2⟩, ⟨Q.ofInt 0, qq (-1) 100, Q.ofInt 0⟩, false⟩

theorem yCollisionPass_spec_witness :
    (c5State.vel.y.le (Q.ofInt 0))
    ∧ (∃ xi ∈ intRange ((c5State.pos.x.sub halfWidth).floorQ)
        ((c5State.pos.x.add halfWidth).floorQ),
      ∃ zi ∈ intRange ((c5State.pos.z.sub halfWidth).floorQ)
        ((c5State.pos.z.add halfWidth).floorQ),
      getBlock c5Chunks xi ((c5State.pos.y.add c5State.vel.y).floorQ) zi ≠ 0)
    ∧ yCollisionPass c5Chunks c5State =
      ⟨⟨c5State.pos.x, Q.ofInt ((c5State.pos.y.add c5State.vel.y).floorQ + 1),
        c5State.pos.z⟩, ⟨c5State.vel.x, Q.ofInt 0, c5State.vel.z⟩, true⟩ :=
  ⟨by decide,
   ⟨0, by decide, 0, by decide, by decide⟩,
   (yCollisionPass_spec c5Chunks c5State).1 (by decide)
     ⟨0, by decide, 0, by decide, by decide⟩⟩

/-! ### Voxel picking (js/game/world.js, getVoxelIntersection) -/

def Vec3.sub (a b : Vec3) : Vec3 := ⟨a.x.sub b.x, a.y.sub b.y, a.z.sub b.z⟩

/-- `Math.abs`. -/
def Q.absQ (a : Q) : Q := if a.lt (Q.ofInt 0) then a.neg else a

/-- `THREE.Ray.at(t)` = origin + t · direction. -/
def rayAt (o d : Vec3) (t : Q) : Vec3 := o.add (d.scale t)

/-- `point.clone().floor()` of a sample point. -/
def floor3 (v : Vec3) : Int × Int × Int := (v.x.floorQ, v.y.floorQ, v.z.floorQ)

structure PickHit where
  position : Int × Int × Int
  normal : Int × Int × Int
deriving DecidableEq

/-- The heuristic face normal of `getVoxelIntersection`: dominant axis of
`diff` by absolute magnitude through the comparison chain x, then y, then
z, with the sign opposite to the step direction. -/
def pickNormal (diff : Vec3) : Int × Int × Int :=
  if (diff.y.absQ).lt (diff.x.absQ) ∧ (diff.z.absQ).lt (diff.x.absQ) then
    ((if (Q.ofInt 0).lt diff.x then -1 else 1), 0, 0)
  else if (diff.z.absQ).lt (diff.y.absQ) then
    (0, (if (Q.ofInt 0).lt diff.y then -1 else 1), 0)
  else
    (0, 0, (if (Q.ofInt 0).lt diff.z then -1 else 1))

/-- One step of the `for (let t = 0; t < 10; t += 0.1)` march: the k-th
sample is at `t = k/10` (exact; the loop guard `t < 10` is `k < 100`,
rendered by the fuel, which starts at 100). -/
def pickGo (chunks : ChunksMap) (o d : Vec3) : Nat → Nat → Option PickHit
  | 0, _ => none
  | fuel + 1, k =>
    let t : Q := qq (k : Int) 10
    let point := rayAt o d t
    let pos := floor3 point
    if getBlock chunks pos.1 pos.2.1 pos.2.2 ≠ 0 then
      let prevPoint := rayAt o d (t.sub (qq 1 10))
      let diff := (point.sub prevPoint).scale (Q.ofInt 10)
      some ⟨pos, pickNormal diff⟩
    else pickGo chunks o d fuel (k + 1)

/-- `getVoxelIntersection(raycaster)` (world.js): step-march with step 0.1
up to distance 10. -/
def getVoxelIntersection (chunks : ChunksMap) (o d : Vec3) : Option PickHit :=
  pickGo chunks o d 100 0

/-- The block sampled at the k-th march point. -/
def sampleBlock (chunks : ChunksMap) (o d : Vec3) (k : Nat) : Int :=
  getBlock chunks (floor3 (rayAt o d (qq (k : Int) 10))).1
    (floor3 (rayAt o d (qq (k : Int) 10))).2.1
    (floor3 (rayAt o d (qq (k : Int) 10))).2.2

theorem pickGo_eq_none_iff (chunks : ChunksMap) (o d : Vec3) :
    ∀ (fuel k : Nat),
      (pickGo chunks o d fuel k = none ↔
        ∀ j, k ≤ j → j < k + fuel → sampleBlock chunks o d j = 0) := by
  intro fuel
  induction fuel with
  | zero => intro k; simp [pickGo]; omega
  | succ n ih =>
    intro k
    rw [pickGo]
    by_cases h : sampleBlock chunks o d k = 0
    · rw [if_neg (by simpa [sampleBlock] using h)]
      rw [ih (k + 1)]
      constructor
      · intro hall j hj1 hj2
        rcases Nat.eq_or_lt_of_le hj1 with rfl | hlt
        · exact h
        · exact hall j hlt (by omega)
      · intro hall j hj1 hj2
        exact hall j (by omega) (by omega)
    · rw [if_pos (by simpa [sampleBlock] using h)]
      constructor
      · intro hc; exact absurd hc (by simp)
      · intro hall
        exact absurd (hall k le_rfl (by omega)) h

theorem pickGo_first_hit (chunks : ChunksMap) (o d : Vec3) :
    ∀ (fuel k m : Nat), k ≤ m → m < k + fuel →
      (∀ j, k ≤ j → j < m → sampleBlock chunks o d j = 0) →
      sampleBlock chunks o d m ≠ 0 →
      pickGo chunks o d fuel k =
        some ⟨floor3 (rayAt o d (qq (m : Int) 10)),
          pickNormal ((rayAt o d (qq (m : Int) 10)).sub
            (rayAt o d ((qq (m : Int) 10).sub (qq 1 10))) |>.scale (Q.ofInt 10))⟩ := by
  intro fuel
  induction fuel with
  | zero => intro k m h1 h2; omega
  | succ n ih =>
    intro k m h1 h2 hpre hm
    rw [pickGo]
    rcases Nat.eq_or_lt_of_le h1 with rfl | hlt
    · rw [if_pos (by simpa [sampleBlock] using hm)]
    · rw [if_neg (by simpa [sampleBlock] using hpre k le_rfl hlt)]
      exact ih (k + 1) m hlt (by omega) (fun j hj1 hj2 => hpre j (by omega) hj2) hm

/-- `Q.lt` only depends on denoted values. -/
theorem Q.lt_congr {a a' b b' : Q} (ha : a.qeq a') (hb : b.qeq b') :
    a.lt b ↔ a'.lt b' := by
  rw [Q.lt_iff, Q.lt_iff, (Q.qeq_iff _ _).mp ha, (Q.qeq_iff _ _).mp hb]

theorem Q.absQ_qeq {a a' : Q} (h : a.qeq a') : a.absQ.qeq a'.absQ := by
  have hv := (Q.qeq_iff _ _).mp h
  simp only [Q.absQ]
  by_cases hlt : a.lt (Q.ofInt 0)
  · rw [if_pos hlt, if_pos ((Q.lt_congr h ((Q.qeq_iff _ _).mpr rfl)).mp hlt)]
    rw [Q.qeq_iff, Q.toRat_neg, Q.toRat_neg, hv]
  · rw [if_neg hlt, if_neg (fun hc => hlt ((Q.lt_congr h ((Q.qeq_iff _ _).mpr rfl)).mpr hc))]
    exact h

/-- `pickNormal` only depends on denoted values. -/
theorem pickNormal_congr {a b : Vec3} (hx : a.x.qeq b.x) (hy : a.y.qeq b.y)
    (hz : a.z.qeq b.z) : pickNormal a = pickNormal b := by
  have c1 : ((a.y.absQ).lt (a.x.absQ) ∧ (a.z.absQ).lt (a.x.absQ))
      ↔ ((b.y.absQ).lt (b.x.absQ) ∧ (b.z.absQ).lt (b.x.absQ)) := by
    rw [Q.lt_congr (Q.absQ_qeq hy) (Q.absQ_qeq hx),
      Q.lt_congr (Q.absQ_qeq hz) (Q.absQ_qeq hx)]
  have c2 : ((a.z.absQ).lt (a.y.absQ)) ↔ ((b.z.absQ).lt (b.y.absQ)) :=
    Q.lt_congr (Q.absQ_qeq hz) (Q.absQ_qeq hy)
  have s0 : Q.qeq (Q.ofInt 0) (Q.ofInt 0) := (Q.qeq_iff _ _).mpr rfl
  have sx : ((Q.ofInt 0).lt a.x) ↔ ((Q.ofInt 0).lt b.x) := Q.lt_congr s0 hx
  have sy : ((Q.ofInt 0).lt a.y) ↔ ((Q.ofInt 0).lt b.y) := Q.lt_congr s0 hy
  have sz : ((Q.ofInt 0).lt a.z) ↔ ((Q.ofInt 0).lt b.z) := Q.lt_congr s0 hz
  simp only [pickNormal]
  by_cases h1 : (a.y.absQ).lt (a.x.absQ) ∧ (a.z.absQ).lt (a.x.absQ)
  · rw [if_pos h1, if_pos (c1.mp h1)]
    by_cases hsx : (Q.ofInt 0).lt a.x
    · rw [if_pos hsx, if_pos (sx.mp hsx)]
    · rw [if_neg hsx, if_neg (fun hc => hsx (sx.mpr hc))]
  · rw [if_neg h1, if_neg (fun hc => h1 (c1.mpr hc))]
    by_cases h2 : (a.z.absQ).lt (a.y.absQ)
    · rw [if_pos h2, if_pos (c2.mp h2)]
      by_cases hsy : (Q.ofInt 0).lt a.y
      · rw [if_pos hsy, if_pos (sy.mp hsy)]
      · rw [if_neg hsy, if_neg (fun hc => hsy (sy.mpr hc))]
    · rw [if_neg h2, if_neg (fun hc => h2 (c2.mpr hc))]
      by_cases hsz : (Q.ofInt 0).lt a.z
      · rw [if_pos hsz, if_pos (sz.mp hsz)]
      · rw [if_neg hsz, if_neg (fun hc => hsz (sz.mpr hc))]

theorem toRat_qq_ten : (qq 1 10).toRat = 1 / 10 := Q.toRat_qq 1 10 (by norm_num)

/-- The heuristic difference vector `(point − prevPoint) * 10` denotes
exactly the ray direction. -/
theorem pickDiff_qeq_dir (o d : Vec3) (t : Q) :
    let point := rayAt o d t
    let prevPoint := rayAt o d (t.sub (qq 1 10))
    let diff := (point.sub prevPoint).scale (Q.ofInt 10)
    diff.x.qeq d.x ∧ diff.y.qeq d.y ∧ diff.z.qeq d.z := by
  refine ⟨?_, ?_, ?_⟩ <;>
  · rw [Q.qeq_iff]
    simp only [rayAt, Vec3.add, Vec3.sub, Vec3.scale, Q.toRat_add, Q.toRat_sub,
      Q.toRat_mul, Q.toRat_ofInt, toRat_qq_ten]
    push_cast
    ring

/-- C8: the pick returns `none` exactly when every sample at
`t = 0, 0.1, …` below distance 10 is air; otherwise it returns the
floored coordinate of the first non-air sample and the dominant-axis
normal of the (exactly reconstructed) ray direction. -/
theorem getVoxelIntersection_spec (chunks : ChunksMap) (o d : Vec3) :
    (getVoxelIntersection chunks o d = none ↔
      ∀ k, k < 100 → sampleBlock chunks o d k = 0)
    ∧ (∀ m : Nat, m < 100 →
      (∀ j, j < m → sampleBlock chunks o d j = 0) →
      sampleBlock chunks o d m ≠ 0 →
      getVoxelIntersection chunks o d =
        some ⟨floor3 (rayAt o d (qq (m : Int) 10)), pickNormal d⟩) := by
  constructor
  · rw [getVoxelIntersection, pickGo_eq_none_iff]
    constructor
    · intro h k hk; exact h k (by omega) (by omega)
    · intro h j hj1 hj2; exact h j (by omega)
  · intro m hm hpre hhit
    rw [getVoxelIntersection,
      pickGo_first_hit chunks o d 100 0 m (by omega) (by omega)
        (fun j hj1 hj2 => hpre j hj2) hhit]
    obtain ⟨hx, hy, hz⟩ := pickDiff_qeq_dir o d (qq (m : Int) 10)
    rw [pickNormal_congr hx hy hz]

/-- The concrete world of the C8 scenario: a single chunk at (0,0), solid
below y = 6, air above. -/
def c8Chunks : ChunksMap :=
  fun key => if key = ((0 : Int), (0 : Int))
    then some (fun i => if i < 1536 then 1 else 0) else none

def c8Origin : Vec3 := ⟨qq 1 2, Q.ofInt 8, qq 1 2⟩

def c8Dir : Vec3 := ⟨Q.ofInt 0, Q.ofInt (-1), Q.ofInt 0⟩

theorem getVoxelIntersection_spec_witness :
    ((21 : Nat) < 100)
    ∧ (∀ j, j < 21 → sampleBlock c8Chunks c8Origin c8Dir j = 0)
    ∧ sampleBlock c8Chunks c8Origin c8Dir 21 ≠ 0
    ∧ getVoxelIntersection c8Chunks c8Origin c8Dir =
        some ⟨floor3 (rayAt c8Origin c8Dir (qq (21 : Int) 10)), pickNormal c8Dir⟩ :=
  ⟨by decide, by decide, by decide,
   (getVoxelIntersection_spec c8Chunks c8Origin c8Dir).2 21 (by decide)
     (by decide) (by decide)⟩

/-! ### Seeded 2D gradient noise (js/game/world.js, perlin2D) -/

/-- `fade(t) = t*t*t*(t*(t*6-15)+10)`. -/
def fade (t : Q) : Q :=
  ((t.mul t).mul t).mul ((t.mul ((t.mul (Q.ofInt 6)).sub (Q.ofInt 15))).add
    (Q.ofInt 10))

/-- `lerp(t, a, b) = a + t*(b-a)`. -/
def lerp (t a b : Q) : Q := a.add (t.mul (b.sub a))

/-- `grad(hash, x, y)`. -/
def grad (hash : Nat) (x y : Q) : Q :=
  let h := hash &&& 7
  let u := if h < 4 then x else y
  let v := if h < 4 then y else x
  (if h &&& 1 ≠ 0 then u.neg else u).add
    (if h &&& 2 ≠ 0 then ((Q.ofInt 2).mul v).neg else (Q.ofInt 2).mul v)

/-- The closure returned by the perlin IIFE, parameterised by the shuffled
permutation table `p` it closes over (the table is built once per run
from the random 32-bit seed; `p` abstracts that seeded state).
`Math.floor(x) & 255` on a (possibly negative) int32 is `emod 256`. -/
def perlinOfTable (p : Nat → Nat) (x y : Q) : Q :=
  let xfl := x.floorQ
  let yfl := y.floorQ
  let X := (xfl.emod 256).toNat
  let Y := (yfl.emod 256).toNat
  let xf := x.sub (Q.ofInt xfl)
  let yf := y.sub (Q.ofInt yfl)
  let u := fade xf
  let v := fade yf
  let A := p X + Y
  let AA := p A
  let AB := p (A + 1)
  let B := p (X + 1) + Y
  let BA := p B
  let BB := p (B + 1)
  lerp v (lerp u (grad (p AA) xf yf) (grad (p BA) (xf.sub (Q.ofInt 1)) yf))
    (lerp u (grad (p AB) xf (yf.sub (Q.ofInt 1)))
      (grad (p BB) (xf.sub (Q.ofInt 1)) (yf.sub (Q.ofInt 1))))

/-- The structural properties the seeding loop guarantees of the table:
a permutation of 0..255, duplicated into the upper half. -/
def permTable (p : Nat → Nat) : Prop :=
  (∀ i < 256, p i < 256)
  ∧ (∀ i < 256, ∀ j < 256, p i = p j → i = j)
  ∧ (∀ i < 512, i ≥ 256 → p i = p (i - 256))

instance (p : Nat → Nat) : Decidable (permTable p) :=
  inferInstanceAs (Decidable (_ ∧ _ ∧ _))

/-- A concrete permutation table (the identity altered by the 3-cycle
(1 2 10) and the swap (3 4), duplicated): the gradients it selects around
the cell of (0.5, 0.5) all evaluate to 3/2 there. -/
def pEx (i : Nat) : Nat :=
  let j := i % 256
  if j = 1 then 2 else if j = 2 then 10 else if j = 10 then 1
  else if j = 3 then 4 else if j = 4 then 3 else j

/-- The inverse permutation of `pEx` on 0..255. -/
def pExInv (j : Nat) : Nat :=
  if j = 2 then 1 else if j = 10 then 2 else if j = 1 then 10
  else if j = 4 then 3 else if j = 3 then 4 else j

set_option maxRecDepth 10000 in
theorem pEx_perm : permTable pEx := by
  have hinv : ∀ i, i < 256 → pExInv (pEx i) = i := by decide
  refine ⟨by decide, ?_, by decide⟩
  intro i hi j hj heq
  have h2 := congrArg pExInv heq
  rwa [hinv i hi, hinv j hj] at h2

/-- C7 counterexample: a valid table under which the sample at
(0.5, 0.5) denotes 3/2, outside the claimed interval [-1, 1]. -/
theorem perlin_exceeds_one :
    permTable pEx
    ∧ (1 : ℚ) < (perlinOfTable pEx (qq 1 2) (qq 1 2)).toRat
    ∧ (perlinOfTable pEx (qq 1 2) (qq 1 2)).toRat = 3 / 2 := by
  refine ⟨pEx_perm, ?_, ?_⟩
  · have h : (Q.ofInt 1).lt (perlinOfTable pEx (qq 1 2) (qq 1 2)) := by decide
    have := (Q.lt_iff _ _).mp h
    rwa [Q.toRat_ofInt] at this
  · have h : (perlinOfTable pEx (qq 1 2) (qq 1 2)).qeq (qq 3 2) := by decide
    have := (Q.qeq_iff _ _).mp h
    rw [this, Q.toRat_qq 3 2 (by norm_num)]
    norm_num

theorem fade_bounds {t : Q} (h0 : 0 ≤ t.toRat) (h1 : t.toRat ≤ 1) :
    0 ≤ (fade t).toRat ∧ (fade t).toRat ≤ 1 := by
  have he : (fade t).toRat
      = t.toRat * t.toRat * t.toRat
        * (t.toRat * (t.toRat * 6 - 15) + 10) := by
    simp only [fade, Q.toRat_mul, Q.toRat_sub, Q.toRat_add, Q.toRat_ofInt]
    push_cast
    ring
  constructor
  · rw [he]
    nlinarith [mul_nonneg (mul_nonneg h0 h0) h0, sq_nonneg (t.toRat - 5/4)]
  · rw [he]
    nlinarith [mul_nonneg (mul_nonneg (sub_nonneg.mpr h1) (sub_nonneg.mpr h1))
      (sub_nonneg.mpr h1), sq_nonneg (t.toRat + 1/4)]

theorem grad_bounds (hash : Nat) {a b : Q}
    (ha1 : -1 ≤ a.toRat) (ha2 : a.toRat ≤ 1)
    (hb1 : -1 ≤ b.toRat) (hb2 : b.toRat ≤ 1) :
    -3 ≤ (grad hash a b).toRat ∧ (grad hash a b).toRat ≤ 3 := by
  simp only [grad]
  split <;> split <;> split <;>
    simp only [Q.toRat_add, Q.toRat_neg, Q.toRat_mul, Q.toRat_ofInt] <;>
    push_cast <;> constructor <;> linarith

theorem lerp_bounds {t a b : Q} (ht0 : 0 ≤ t.toRat) (ht1 : t.toRat ≤ 1)
    (ha1 : -3 ≤ a.toRat) (ha2 : a.toRat ≤ 3)
    (hb1 : -3 ≤ b.toRat) (hb2 : b.toRat ≤ 3) :
    -3 ≤ (lerp t a b).toRat ∧ (lerp t a b).toRat ≤ 3 := by
  have he : (lerp t a b).toRat = a.toRat + t.toRat * (b.toRat - a.toRat) := by
    simp only [lerp, Q.toRat_add, Q.toRat_mul, Q.toRat_sub]
  constructor
  · rw [he]; nlinarith [mul_nonneg ht0 (by linarith : (0:ℚ) ≤ b.toRat + 3)]
  · rw [he]; nlinarith [mul_nonneg ht0 (by linarith : (0:ℚ) ≤ 3 - b.toRat)]

/-- C7 amended: for every table and every input the sample denotes a value
in [-3, 3] (the gradients are `±u ± 2v` with `|u|,|v| ≤ 1`, and both
interpolation weights lie in [0, 1]). -/
theorem perlin_bounded (p : Nat → Nat) (x y : Q) :
    -3 ≤ (perlinOfTable p x y).toRat ∧ (perlinOfTable p x y).toRat ≤ 3 := by
  have hx : (x.sub (Q.ofInt x.floorQ)).toRat = Int.fract x.toRat := by
    rw [Q.toRat_sub, Q.toRat_ofInt, Q.floorQ_eq, Int.fract]
  have hy : (y.sub (Q.ofInt y.floorQ)).toRat = Int.fract y.toRat := by
    rw [Q.toRat_sub, Q.toRat_ofInt, Q.floorQ_eq, Int.fract]
  have hx0 : 0 ≤ (x.sub (Q.ofInt x.floorQ)).toRat := by
    rw [hx]; exact Int.fract_nonneg _
  have hx1 : (x.sub (Q.ofInt x.floorQ)).toRat ≤ 1 := by
    rw [hx]; exact le_of_lt (Int.fract_lt_one _)
  have hy0 : 0 ≤ (y.sub (Q.ofInt y.floorQ)).toRat := by
    rw [hy]; exact Int.fract_nonneg _
  have hy1 : (y.sub (Q.ofInt y.floorQ)).toRat ≤ 1 := by
    rw [hy]; exact le_of_lt (Int.fract_lt_one _)
  have hxm1 : -1 ≤ ((x.sub (Q.ofInt x.floorQ)).sub (Q.ofInt 1)).toRat
      ∧ ((x.sub (Q.ofInt x.floorQ)).sub (Q.ofInt 1)).toRat ≤ 1 := by
    rw [Q.toRat_sub, Q.toRat_ofInt]
    constructor <;> push_cast <;> linarith
  have hym1 : -1 ≤ ((y.sub (Q.ofInt y.floorQ)).sub (Q.ofInt 1)).toRat
      ∧ ((y.sub (Q.ofInt y.floorQ)).sub (Q.ofInt 1)).toRat ≤ 1 := by
    rw [Q.toRat_sub, Q.toRat_ofInt]
    constructor <;> push_cast <;> linarith
  have hu := fade_bounds hx0 hx1
  have hv := fade_bounds hy0 hy1
  simp only [perlinOfTable]
  refine lerp_bounds hv.1 hv.2 ?_ ?_ ?_ ?_
  · exact (lerp_bounds hu.1 hu.2
      (grad_bounds _ (by linarith) hx1 (by linarith) hy1).1
      (grad_bounds _ (by linarith) hx1 (by linarith) hy1).2
      (grad_bounds _ hxm1.1 hxm1.2 (by linarith) hy1).1
      (grad_bounds _ hxm1.1 hxm1.2 (by linarith) hy1).2).1
  · exact (lerp_bounds hu.1 hu.2
      (grad_bounds _ (by linarith) hx1 (by linarith) hy1).1
      (grad_bounds _ (by linarith) hx1 (by linarith) hy1).2
      (grad_bounds _ hxm1.1 hxm1.2 (by linarith) hy1).1
      (grad_bounds _ hxm1.1 hxm1.2 (by linarith) hy1).2).2
  · exact (lerp_bounds hu.1 hu.2
      (grad_bounds _ (by linarith) hx1 hym1.1 hym1.2).1
      (grad_bounds _ (by linarith) hx1 hym1.1 hym1.2).2
      (grad_bounds _ hxm1.1 hxm1.2 hym1.1 hym1.2).1
      (grad_bounds _ hxm1.1 hxm1.2 hym1.1 hym1.2).2).1
  · exact (lerp_bounds hu.1 hu.2
      (grad_bounds _ (by linarith) hx1 hym1.1 hym1.2).1
      (grad_bounds _ (by linarith) hx1 hym1.1 hym1.2).2
      (grad_bounds _ hxm1.1 hxm1.2 hym1.1 hym1.2).1
      (grad_bounds _ hxm1.1 hxm1.2 hym1.1 hym1.2).2).2

/-! ### Terrain generation (js/game/world.js, generateChunk and the tree
generators)

`Math.random()` is modelled as an explicit stream `r : Nat → Q` read at a
draw counter that advances once per call, in program order.  The chunk's
`Uint8Array` is represented by its write journal (newest first), read
through `journalRead`; `generateLargeTree`'s `sqrt(dx²+dz²+0.5·dy²) > 4`
is rendered as the equivalent comparison of the radicand with 16 (both
sides are nonnegative, so squaring is exact). -/

/- Generation state: the chunk's Uint8Array represented as its write
journal (newest entry first; unwritten cells are 0, matching the
zero-initialised Uint8Array), plus the Math.random draw counter. -/
structure GenSt where
  journal : List (Nat × Nat)
  ctr : Nat

def journalRead (j : List (Nat × Nat)) (idx : Nat) : Nat :=
  match j.find? (fun e => e.1 = idx) with
  | some e => e.2
  | none => 0

def GenSt.draw (r : Nat → Q) (s : GenSt) : Q × GenSt :=
  (r s.ctr, ⟨s.journal, s.ctr + 1⟩)

def GenSt.write (s : GenSt) (idx : Nat) (v : Nat) : GenSt :=
  ⟨(idx, v) :: s.journal, s.ctr⟩

def GenSt.read (s : GenSt) (idx : Nat) : Nat := journalRead s.journal idx

def generateOakTree (r : Nat → Q) (x y z : Nat) (s0 : GenSt) : GenSt :=
  let (h0, s1) := s0.draw r
  let treeHeight : Nat := 4 + ((h0.mul (Q.ofInt 3)).floorQ).toNat
  let s2 := (List.range treeHeight).foldl (fun s i =>
    if y + i < 64 then s.write (x + z * 16 + (y + i) * 256) 5 else s) s1
  let leafY := y + treeHeight - 1
  (intRange (-2) 2).foldl (fun s dx =>
    (intRange (-2) 2).foldl (fun s dz =>
      (intRange 0 2).foldl (fun s dy =>
        if dx.natAbs + dz.natAbs + dy.natAbs > 3 then s
        else
          let leafX := (x : Int) + dx
          let leafZ := (z : Int) + dz
          let leafYPos := (leafY : Int) + dy
          if 0 ≤ leafX ∧ leafX < 16 ∧ 0 ≤ leafZ ∧ leafZ < 16 ∧ leafYPos < 64 then
            let idx := (leafX + leafZ * 16 + leafYPos * 256).toNat
            if s.read idx = 0 then
              let (c, s1) := s.draw r
              if c.lt (qq 8 10) then s1.write idx 6 else s1
            else s
          else s) s) s) s2

def generateTallTree (r : Nat → Q) (x y z : Nat) (s0 : GenSt) : GenSt :=
  let (h0, s1) := s0.draw r
  let treeHeight : Nat := 8 + ((h0.mul (Q.ofInt 4)).floorQ).toNat
  let s2 := (List.range treeHeight).foldl (fun s i =>
    if y + i < 64 then s.write (x + z * 16 + (y + i) * 256) 5 else s) s1
  let leafY := y + treeHeight - 2
  (intRange (-1) 1).foldl (fun s dx =>
    (intRange (-1) 1).foldl (fun s dz =>
      (intRange 0 3).foldl (fun s dy =>
        let leafX := (x : Int) + dx
        let leafZ := (z : Int) + dz
        let leafYPos := (leafY : Int) + dy
        if 0 ≤ leafX ∧ leafX < 16 ∧ 0 ≤ leafZ ∧ leafZ < 16 ∧ leafYPos < 64 then
          let idx := (leafX + leafZ * 16 + leafYPos * 256).toNat
          if s.read idx = 0 then
            let (c, s1) := s.draw r
            if c.lt (qq 9 10) then s1.write idx 6 else s1
          else s
        else s) s) s) s2

def generateLargeTree (r : Nat → Q) (x y z : Nat) (s0 : GenSt) : GenSt :=
  let (h0, s1) := s0.draw r
  let treeHeight : Nat := 6 + ((h0.mul (Q.ofInt 3)).floorQ).toNat
  let s2 := (List.range 2).foldl (fun s dx =>
    (List.range 2).foldl (fun s dz =>
      (List.range treeHeight).foldl (fun s i =>
        if x + dx < 16 ∧ z + dz < 16 ∧ y + i < 64 then
          s.write ((x + dx) + (z + dz) * 16 + (y + i) * 256) 5
        else s) s) s) s1
  let leafY := y + treeHeight - 2
  (intRange (-3) 4).foldl (fun s dx =>
    (intRange (-3) 4).foldl (fun s dz =>
      (intRange 0 4).foldl (fun s dy =>
        -- sqrt(dx*dx + dz*dz + dy*dy*0.5) > 4  iff  the radicand exceeds 16
        if (Q.ofInt 16).lt ((Q.ofInt (dx * dx + dz * dz)).add ((qq (dy * dy) 2)))
        then s
        else
          let leafX := (x : Int) + dx
          let leafZ := (z : Int) + dz
          let leafYPos := (leafY : Int) + dy
          if 0 ≤ leafX ∧ leafX < 16 ∧ 0 ≤ leafZ ∧ leafZ < 16 ∧ leafYPos < 64 then
            let idx := (leafX + leafZ * 16 + leafYPos * 256).toNat
            if s.read idx = 0 then
              let (c, s1) := s.draw r
              if c.lt (qq 7 10) then s1.write idx 6 else s1
            else s
          else s) s) s) s2

def generateTree (r : Nat → Q) (x y z : Nat) (s0 : GenSt) : GenSt :=
  let (tt, s1) := s0.draw r
  if tt.lt (qq 7 10) then generateOakTree r x y z s1
  else if tt.lt (qq 9 10) then generateTallTree r x y z s1
  else generateLargeTree r x y z s1

def generateColumnFill (p : Nat → Nat) (r : Nat → Q) (chunkX chunkZ : Int)
    (x z : Nat) (s0 : GenSt) : GenSt :=
  let worldX := chunkX * 16 + (x : Int)
  let worldZ := chunkZ * 16 + (z : Int)
  let mf0 := perlinOfTable p ((Q.ofInt worldX).mul (qq 3 1000))
    ((Q.ofInt worldZ).mul (qq 3 1000))
  let mountainFactor := ((mf0.sub (qq 1 10)).mul (qq 15 10)).max0
  let baseHills := (perlinOfTable p ((Q.ofInt worldX).mul (qq 15 1000))
    ((Q.ofInt worldZ).mul (qq 15 1000))).mul (Q.ofInt 6)
  let mountainDetail := (perlinOfTable p ((Q.ofInt worldX).mul (qq 3 100))
    ((Q.ofInt worldZ).mul (qq 3 100))).mul (Q.ofInt 20)
  let mountainHeight := (mountainFactor.mul mountainFactor).mul
    ((Q.ofInt 25).add mountainDetail)
  let totalHeight := ((Q.ofInt 32).add baseHills).add mountainHeight
  (List.range 64).foldl (fun s y =>
    let index := x + z * 16 + y * 256
    let surfaceY := totalHeight.floorQ
    if (y : Int) = surfaceY then
      if mountainHeight.lt (Q.ofInt 5) then
        let s := s.write index 4
        if mountainHeight.qeq (Q.ofInt 0) then
          let (c, s1) := s.draw r
          if c.lt (qq 8 1000) then generateTree r x (y + 1) z s1 else s1
        else s
      else
        let (c, s1) := s.draw r
        s1.write index (if c.lt (qq 7 10) then 1 else 2)
    else if (y : Int) < surfaceY ∧ surfaceY - 4 < (y : Int) then
      s.write index 3
    else if (y : Int) < surfaceY - 3 then
      s.write index 1
    else s) s0

def generateChunkBlocks (p : Nat → Nat) (chunkX chunkZ : Int) (r : Nat → Q) :
    GenSt :=
  (List.range 16).foldl (fun s x =>
    (List.range 16).foldl (fun s z =>
      generateColumnFill p r chunkX chunkZ x z s) s) ⟨[], 0⟩


/-- The grid a generation run denotes, as the map the chunk store keeps. -/
def GenSt.toBlocks (s : GenSt) : ChunkBlocks := fun i => journalRead s.journal i

/-- `generateChunk(chunkX, chunkZ)` at the store level (world.js lines
68-128): a no-op when the chunk already exists, otherwise the generated
grid is inserted. -/
def generateChunkStore (p : Nat → Nat) (r : Nat → Q) (chunks : ChunksMap)
    (cx cz : Int) : ChunksMap :=
  match chunks (cx, cz) with
  | some _ => chunks
  | none => fun key => if key = (cx, cz)
      then some (generateChunkBlocks p cx cz r).toBlocks else chunks key

/-- The two concrete `Math.random` streams of the C6 counterexample. -/
def rA : Nat → Q := fun _ => qq 1 2

def rB : Nat → Q := fun _ => qq 3 4

set_option maxRecDepth 100000 in
set_option maxHeartbeats 8000000 in
/-- C6 counterexample: with the valid table `pEx`, generating chunk (0, 4)
under the stream that always returns 0.5 puts stone (1) at cell index
11775 (x = 15, z = 15, y = 45, the surface of the last column, a mountain
column), while the stream that always returns 0.75 puts cobblestone (2)
there: the generated grid is not a function of seed and coordinate
alone. -/
theorem generateChunk_random_dependent :
    permTable pEx
    ∧ (generateChunkBlocks pEx 0 4 rA).toBlocks 11775 = 1
    ∧ (generateChunkBlocks pEx 0 4 rB).toBlocks 11775 = 2
    ∧ ¬ (∀ (p : Nat → Nat) (cx cz : Int) (r₁ r₂ : Nat → Q), permTable p →
        (generateChunkBlocks p cx cz r₁).toBlocks
          = (generateChunkBlocks p cx cz r₂).toBlocks) := by
  refine ⟨pEx_perm, by decide, by decide, ?_⟩
  intro h
  have h2 := congrFun (h pEx 0 4 rA rB pEx_perm) 11775
  have hA : (generateChunkBlocks pEx 0 4 rA).toBlocks 11775 = 1 := by decide
  have hB : (generateChunkBlocks pEx 0 4 rB).toBlocks 11775 = 2 := by decide
  rw [hA, hB] at h2
  exact absurd h2 (by decide)

/-- C6 amended: determinism holds at the chunk-store level: a second
`generateChunk` call for a coordinate that already has a chunk is a no-op
whatever random values it would draw, so the stored grid of a coordinate
never changes across repeated generation requests. -/
theorem generateChunkStore_idempotent (p : Nat → Nat) (r1 r2 : Nat → Q)
    (chunks : ChunksMap) (cx cz : Int) :
    generateChunkStore p r2 (generateChunkStore p r1 chunks cx cz) cx cz
      = generateChunkStore p r1 chunks cx cz := by
  rcases h : chunks (cx, cz) with _ | c
  · have h1 : generateChunkStore p r1 chunks cx cz
        = fun key => if key = (cx, cz)
          then some (generateChunkBlocks p cx cz r1).toBlocks else chunks key := by
      rw [generateChunkStore, h]
    rw [h1, generateChunkStore]
    simp
  · have h1 : generateChunkStore p r1 chunks cx cz = chunks := by
      rw [generateChunkStore, h]
    rw [h1, generateChunkStore, h]

/-! ### Greedy meshing (js/game/world.js, greedyMeshChunk)

The sweep over `x[axis]` from −1 to `dims[axis]−1` is indexed below by the
boundary-plane position `plane = x[axis] + 1 ∈ [0, dims[axis]]` (the faces
are emitted after `x[axis]++`, i.e. at `plane`).  The per-slice
`Int32Array` mask is the function `n ↦ maskVal …` of the cell it ends up
holding: the build loop writes exactly index `n = x[v]·dims[u] + x[u]`
once, from the two blocks adjacent to the slice.  The greedy consumption
loops (`while` width/height growth, rectangle zeroing, row scan) are the
recursions `growWidth`, `growHeight`, `zeroRect`, `scanRow`, `scanRows`. -/

def dims : Nat → Nat
  | 0 => CHUNK_SIZE
  | 1 => WORLD_HEIGHT
  | _ => CHUNK_SIZE

/-- `getBlockInChunk(chunk, x, y, z)` (world.js). -/
def getBlockInChunk (c : ChunkBlocks) (x y z : Int) : Int :=
  if x < 0 ∨ (CHUNK_SIZE : Int) ≤ x ∨ y < 0 ∨ (WORLD_HEIGHT : Int) ≤ y
      ∨ z < 0 ∨ (CHUNK_SIZE : Int) ≤ z then 0
  else (c (x + z * 16 + y * 256).toNat : Int)

/-- The position vector `x` with `x[axis] = s`, `x[u] = i`, `x[v] = j`
(`u = (axis+1)%3`, `v = (axis+2)%3`). -/
def meshPos (axis : Nat) (s i j : Int) : Int × Int × Int :=
  match axis with
  | 0 => (s, i, j)
  | 1 => (j, s, i)
  | _ => (i, j, s)

/-- The mask entry of sweep plane `plane` at in-plane cell (i, j):
`blockA` sits at `x[axis] = plane − 1` (forced to air when the sweep is at
the lower open boundary, `plane = 0`), `blockB` at `x[axis] = plane`
(forced to air at the upper open boundary, `plane = dims axis`). -/
def maskVal (c : ChunkBlocks) (axis plane : Nat) (i j : Nat) : Int :=
  let posA := meshPos axis ((plane : Int) - 1) (i : Int) (j : Int)
  let posB := meshPos axis (plane : Int) (i : Int) (j : Int)
  let blockA := if 1 ≤ plane
    then getBlockInChunk c posA.1 posA.2.1 posA.2.2 else 0
  let blockB := if plane < dims axis
    then getBlockInChunk c posB.1 posB.2.1 posB.2.2 else 0
  if (blockA ≠ 0) = (blockB ≠ 0) then 0
  else if blockA ≠ 0 then blockA else -blockB

/-- The mask array of one sweep plane, as the function of the index
`n = x[v]·dims[u] + x[u]` the build loop writes. -/
def maskFn (c : ChunkBlocks) (axis plane : Nat) : Nat → Int :=
  fun n => maskVal c axis plane (n % dims ((axis + 1) % 3))
    (n / dims ((axis + 1) % 3))

/-- `while (i + w < dims[u] && mask[n + w] === currentMask) w++`. -/
def growWidth (m : Nat → Int) (c : Int) (dimu n i : Nat) (w : Nat) : Nat :=
  if i + w < dimu ∧ m (n + w) = c then growWidth m c dimu n i (w + 1) else w
termination_by dimu - (i + w)
decreasing_by omega

/-- `for (k = 0; k < w; k++) mask[n + k + h*dims[u]] === currentMask`. -/
def rowFits (m : Nat → Int) (c : Int) (dimu n h w : Nat) : Bool :=
  (List.range w).all fun k => m (n + k + h * dimu) == c

/-- The height-growth loop: extend while the whole next row matches. -/
def growHeight (m : Nat → Int) (c : Int) (dimu dimv n w j : Nat) (h : Nat) :
    Nat :=
  if j + h < dimv ∧ rowFits m c dimu n h w then
    growHeight m c dimu dimv n w j (h + 1)
  else h
termination_by dimv - (j + h)
decreasing_by omega

/-- Zero the consumed rectangle: the loop writes exactly the indices whose
row/column decomposition lies in `[i, i+w) × [j, j+h)`. -/
def zeroRect (m : Nat → Int) (dimu i j w h : Nat) : Nat → Int :=
  fun idx =>
    if i ≤ idx % dimu ∧ idx % dimu < i + w ∧ j ≤ idx / dimu ∧ idx / dimu < j + h
    then 0 else m idx

/-- A maximal rectangle the row scan emits. -/
structure Rect where
  i : Nat
  j : Nat
  w : Nat
  h : Nat
  c : Int
deriving DecidableEq

theorem growWidth_spec (m : Nat → Int) (c : Int) (dimu n i : Nat) :
    ∀ w, w ≤ growWidth m c dimu n i w
    ∧ (i + w ≤ dimu → i + growWidth m c dimu n i w ≤ dimu)
    ∧ ((∀ k, k < w → m (n + k) = c) →
        ∀ k, k < growWidth m c dimu n i w → m (n + k) = c) := by
  suffices hs : ∀ fuel w, dimu - (i + w) ≤ fuel →
      (w ≤ growWidth m c dimu n i w
      ∧ (i + w ≤ dimu → i + growWidth m c dimu n i w ≤ dimu)
      ∧ ((∀ k, k < w → m (n + k) = c) →
          ∀ k, k < growWidth m c dimu n i w → m (n + k) = c)) by
    intro w
    exact hs (dimu - (i + w)) w le_rfl
  intro fuel
  induction fuel with
  | zero =>
    intro w hw
    rw [growWidth]
    split
    · omega
    · exact ⟨le_rfl, fun hh => hh, fun hall k hk => hall k hk⟩
  | succ f ih =>
    intro w hw
    rw [growWidth]
    split
    · rename_i hcond
      have hrec := ih (w + 1) (by omega)
      refine ⟨Nat.le_trans (Nat.le_succ w) hrec.1,
        fun _ => hrec.2.1 (by omega), ?_⟩
      intro hall k hk
      refine hrec.2.2 ?_ k hk
      intro k2 hk2
      rcases Nat.lt_or_ge k2 w with h2 | h2
      · exact hall k2 h2
      · have he : k2 = w := by omega
        subst he
        exact hcond.2
    · exact ⟨le_rfl, fun hh => hh, fun hall k hk => hall k hk⟩

theorem growHeight_spec (m : Nat → Int) (c : Int) (dimu dimv n w j : Nat) :
    ∀ h, h ≤ growHeight m c dimu dimv n w j h
    ∧ (j + h ≤ dimv → j + growHeight m c dimu dimv n w j h ≤ dimv)
    ∧ ((∀ l, l < h → ∀ k, k < w → m (n + k + l * dimu) = c) →
        ∀ l, l < growHeight m c dimu dimv n w j h → ∀ k, k < w →
          m (n + k + l * dimu) = c) := by
  suffices hs : ∀ fuel h, dimv - (j + h) ≤ fuel →
      (h ≤ growHeight m c dimu dimv n w j h
      ∧ (j + h ≤ dimv → j + growHeight m c dimu dimv n w j h ≤ dimv)
      ∧ ((∀ l, l < h → ∀ k, k < w → m (n + k + l * dimu) = c) →
          ∀ l, l < growHeight m c dimu dimv n w j h → ∀ k, k < w →
            m (n + k + l * dimu) = c)) by
    intro h
    exact hs (dimv - (j + h)) h le_rfl
  intro fuel
  induction fuel with
  | zero =>
    intro h hh
    rw [growHeight]
    split
    · omega
    · exact ⟨le_rfl, fun hx => hx, fun hall => hall⟩
  | succ f ih =>
    intro h hh
    rw [growHeight]
    split
    · rename_i hcond
      have hfit : ∀ k, k < w → m (n + k + h * dimu) = c := by
        intro k hk
        have h3 := hcond.2
        rw [rowFits, List.all_eq_true] at h3
        exact beq_iff_eq.mp (h3 k (List.mem_range.mpr hk))
      have hrec := ih (h + 1) (by omega)
      refine ⟨Nat.le_trans (Nat.le_succ h) hrec.1,
        fun _ => hrec.2.1 (by omega), ?_⟩
      intro hall l hl k hk
      refine hrec.2.2 ?_ l hl k hk
      intro l2 hl2 k2 hk2
      rcases Nat.lt_or_ge l2 h with h2 | h2
      · exact hall l2 h2 k2 hk2
      · have he : l2 = h := by omega
        subst he
        exact hfit k2 hk2
    · exact ⟨le_rfl, fun hx => hx, fun hall => hall⟩

/-- The row scan of the greedy pass (`for (i = 0; i < dims[u];)` with
`n = j·dims[u] + i` maintained): on a nonzero mask cell, grow the maximal
rectangle, emit it, zero its cells and jump past its width; otherwise
advance one cell.  Returns the emitted rectangles and the updated mask. -/
def scanRow (dimu dimv j : Nat) (m : Nat → Int) (i : Nat) :
    List Rect × (Nat → Int) :=
  if hi : i < dimu then
    let n := j * dimu + i
    if m n ≠ 0 then
      let c := m n
      let w := growWidth m c dimu n i 1
      let h := growHeight m c dimu dimv n w j 1
      let m2 := zeroRect m dimu i j w h
      let res := scanRow dimu dimv j m2 (i + w)
      (⟨i, j, w, h, c⟩ :: res.1, res.2)
    else scanRow dimu dimv j m (i + 1)
  else ([], m)
termination_by dimu - i
decreasing_by
  · have h1 := (growWidth_spec m (m (j * dimu + i)) dimu (j * dimu + i) i 1).1
    omega
  · omega

/-- The row loop `for (j = 0; j < dims[v]; j++)`, threading the mask. -/
def scanRows (dimu dimv : Nat) (m : Nat → Int) (j : Nat) : List Rect :=
  if j < dimv then
    let res := scanRow dimu dimv j m 0
    res.1 ++ scanRows dimu dimv res.2 (j + 1)
  else []
termination_by dimv - j
decreasing_by omega

/-- The whole greedy consumption of one plane's mask. -/
def scanSlice (dimu dimv : Nat) (m : Nat → Int) : List Rect :=
  scanRows dimu dimv m 0

/-- Whether rectangle `r` contains the in-plane cell (a, bb). -/
def Rect.covers (r : Rect) (a bb : Nat) : Bool :=
  decide (r.i ≤ a) && decide (a < r.i + r.w)
    && decide (r.j ≤ bb) && decide (bb < r.j + r.h)

theorem Rect.covers_iff (r : Rect) (a bb : Nat) :
    r.covers a bb = true
      ↔ (r.i ≤ a ∧ a < r.i + r.w ∧ r.j ≤ bb ∧ bb < r.j + r.h) := by
  simp [Rect.covers, and_assoc]

theorem idx_mod (dimu a bb : Nat) (ha : a < dimu) : (bb * dimu + a) % dimu = a := by
  rw [Nat.mul_comm bb dimu, Nat.mul_add_mod, Nat.mod_eq_of_lt ha]

theorem idx_div (dimu a bb : Nat) (ha : a < dimu) : (bb * dimu + a) / dimu = bb := by
  rw [Nat.mul_comm bb dimu, Nat.mul_add_div (by omega), Nat.div_eq_of_lt ha,
    Nat.add_zero]

theorem cell_decomp (dimu i j a bb : Nat) (hai : i ≤ a) (hbj : j ≤ bb) :
    (j * dimu + i) + (a - i) + (bb - j) * dimu = bb * dimu + a := by
  obtain ⟨k, rfl⟩ := Nat.le.dest hai
  obtain ⟨l, rfl⟩ := Nat.le.dest hbj
  simp only [Nat.add_sub_cancel_left]
  ring

/-- `zeroRect` at a decomposed cell index. -/
theorem zeroRect_cell (m : Nat → Int) (dimu i j w h a bb : Nat)
    (ha : a < dimu) :
    zeroRect m dimu i j w h (bb * dimu + a)
      = if i ≤ a ∧ a < i + w ∧ j ≤ bb ∧ bb < j + h then 0
        else m (bb * dimu + a) := by
  simp only [zeroRect, idx_mod dimu a bb ha, idx_div dimu a bb ha]

theorem scanRow_spec_aux (dimu dimv j : Nat) (hj : j < dimv) :
    ∀ fuel i (m : Nat → Int), dimu - i ≤ fuel →
    (∀ r ∈ (scanRow dimu dimv j m i).1,
        r.j = j ∧ i ≤ r.i ∧ 1 ≤ r.w ∧ 1 ≤ r.h ∧ r.i + r.w ≤ dimu
          ∧ r.j + r.h ≤ dimv)
    ∧ (∀ r ∈ (scanRow dimu dimv j m i).1, ∀ a bb, a < dimu → bb < dimv →
        Rect.covers r a bb = true → m (bb * dimu + a) = r.c ∧ r.c ≠ 0)
    ∧ (∀ a bb, a < dimu → bb < dimv →
        List.countP (fun r => Rect.covers r a bb) (scanRow dimu dimv j m i).1
          = if m (bb * dimu + a) ≠ 0
              ∧ (scanRow dimu dimv j m i).2 (bb * dimu + a) = 0
            then 1 else 0)
    ∧ (∀ a, i ≤ a → a < dimu → (scanRow dimu dimv j m i).2 (j * dimu + a) = 0)
    ∧ (∀ a bb, a < dimu → bb < dimv → (bb < j ∨ (bb = j ∧ a < i)) →
        (scanRow dimu dimv j m i).2 (bb * dimu + a) = m (bb * dimu + a))
    ∧ (∀ a bb, a < dimu → bb < dimv →
        (scanRow dimu dimv j m i).2 (bb * dimu + a)
          = if ((scanRow dimu dimv j m i).1.any
                (fun r => Rect.covers r a bb)) = true
            then 0 else m (bb * dimu + a)) := by
  intro fuel
  induction fuel with
  | zero =>
    intro i m hfu
    have hi : ¬ i < dimu := by omega
    rw [scanRow, dif_neg hi]
    refine ⟨by simp, by simp, ?_, ?_, by intro a bb _ _ _; rfl, ?_⟩
    · intro a bb ha hb
      simp only [List.countP_nil]
      rw [if_neg]
      rintro ⟨h1, h2⟩
      exact h1 h2
    · intro a h1 h2
      omega
    · intro a bb ha hb
      simp
  | succ f ih =>
    intro i m hfu
    by_cases hi : i < dimu
    · rw [scanRow]
      simp only [dif_pos hi]
      by_cases hc : m (j * dimu + i) ≠ 0
      · rw [if_pos hc]
        -- abbreviations matching the definition's lets
        set n := j * dimu + i with hn
        set c := m n with hcdef
        set w := growWidth m c dimu n i 1 with hw
        set h := growHeight m c dimu dimv n w j 1 with hh
        set m2 := zeroRect m dimu i j w h with hm2
        have hw1 : 1 ≤ w := (growWidth_spec m c dimu n i 1).1
        have hwle : i + w ≤ dimu := (growWidth_spec m c dimu n i 1).2.1 (by omega)
        have hwall : ∀ k, k < w → m (n + k) = c :=
          (growWidth_spec m c dimu n i 1).2.2
            (by intro k hk; interval_cases k; rfl)
        have hh1 : 1 ≤ h := (growHeight_spec m c dimu dimv n w j 1).1
        have hhle : j + h ≤ dimv :=
          (growHeight_spec m c dimu dimv n w j 1).2.1 (by omega)
        have hhall : ∀ l, l < h → ∀ k, k < w → m (n + k + l * dimu) = c :=
          (growHeight_spec m c dimu dimv n w j 1).2.2
            (by
              intro l hl k hk
              interval_cases l
              simpa using hwall k hk)
        -- every cell of the emitted rectangle holds value c in m
        have hcell : ∀ a bb, i ≤ a → a < i + w → j ≤ bb → bb < j + h →
            m (bb * dimu + a) = c := by
          intro a bb h1 h2 h3 h4
          have hd := cell_decomp dimu i j a bb h1 h3
          rw [← hd]
          exact hhall (bb - j) (by omega) (a - i) (by omega)
        -- m2 at a decomposed cell
        have hm2cell : ∀ a bb, a < dimu →
            m2 (bb * dimu + a)
              = if i ≤ a ∧ a < i + w ∧ j ≤ bb ∧ bb < j + h then 0
                else m (bb * dimu + a) := by
          intro a bb ha
          rw [hm2]
          exact zeroRect_cell m dimu i j w h a bb ha
        have hrec := ih (i + w) m2 (by omega)
        obtain ⟨r1, r2, r3, r4, r5, r6⟩ := hrec
        refine ⟨?_, ?_, ?_, ?_, ?_, ?_⟩
        · -- S1
          intro r hr
          rcases List.mem_cons.mp hr with rfl | hr2
          · exact ⟨rfl, le_rfl, hw1, hh1, hwle, hhle⟩
          · have := r1 r hr2
            exact ⟨this.1, by omega, this.2.2.1, this.2.2.2.1,
              this.2.2.2.2.1, this.2.2.2.2.2⟩
        · -- S2
          intro r hr a bb ha hb hcov
          rcases List.mem_cons.mp hr with rfl | hr2
          · rw [Rect.covers_iff] at hcov
            simp only at hcov
            exact ⟨hcell a bb hcov.1 hcov.2.1 hcov.2.2.1 hcov.2.2.2, hc⟩
          · have h2 := r2 r hr2 a bb ha hb hcov
            have h3 : m2 (bb * dimu + a) ≠ 0 := by
              rw [h2.1]; exact h2.2
            rw [hm2cell a bb ha] at h2
            rcases Classical.em (i ≤ a ∧ a < i + w ∧ j ≤ bb ∧ bb < j + h)
              with hin | hout
            · rw [hm2cell a bb ha, if_pos hin] at h3
              exact absurd rfl h3
            · rw [if_neg hout] at h2
              exact h2
        · -- S3
          intro a bb ha hb
          rw [List.countP_cons]
          rcases Classical.em (i ≤ a ∧ a < i + w ∧ j ≤ bb ∧ bb < j + h)
            with hin | hout
          · -- cell inside the emitted rectangle
            have hm20 : m2 (bb * dimu + a) = 0 := by
              rw [hm2cell a bb ha, if_pos hin]
            have hcnt : List.countP (fun r => Rect.covers r a bb)
                (scanRow dimu dimv j m2 (i + w)).1 = 0 := by
              rw [r3 a bb ha hb]
              rw [if_neg]
              rintro ⟨hx, _⟩
              exact hx hm20
            rw [hcnt]
            have hcv : Rect.covers ⟨i, j, w, h, c⟩ a bb = true := by
              rw [Rect.covers_iff]
              exact hin
            rw [if_pos hcv]
            have hms : (scanRow dimu dimv j m2 (i + w)).2 (bb * dimu + a) = 0 := by
              rw [r6 a bb ha hb]
              split
              · rfl
              · exact hm20
            rw [if_pos]
            refine ⟨?_, hms⟩
            rw [hcell a bb hin.1 hin.2.1 hin.2.2.1 hin.2.2.2]
            exact hc
          · -- cell outside the emitted rectangle
            have hmeq : m2 (bb * dimu + a) = m (bb * dimu + a) := by
              rw [hm2cell a bb ha, if_neg hout]
            have hcv : Rect.covers ⟨i, j, w, h, c⟩ a bb = false := by
              rw [← Bool.not_eq_true, Rect.covers_iff]
              simpa using hout
            rw [hcv, if_neg (by simp), Nat.add_zero, r3 a bb ha hb, hmeq]
        · -- S4
          intro a h1 h2
          rcases Nat.lt_or_ge a (i + w) with h3 | h3
          · have : m2 (j * dimu + a) = 0 := by
              rw [hm2cell a j h2, if_pos ⟨h1, h3, le_rfl, by omega⟩]
            rw [r5 a j h2 hj (Or.inr ⟨rfl, by omega⟩)]
            exact this
          · exact r4 a h3 h2
        · -- S5
          intro a bb ha hb hreg
          have hout : ¬ (i ≤ a ∧ a < i + w ∧ j ≤ bb ∧ bb < j + h) := by
            rintro ⟨x1, x2, x3, x4⟩
            rcases hreg with h5 | ⟨h5, h6⟩
            · omega
            · omega
          have hmeq : m2 (bb * dimu + a) = m (bb * dimu + a) := by
            rw [hm2cell a bb ha, if_neg hout]
          refine Eq.trans (r5 a bb ha hb ?_) hmeq
          rcases hreg with h5 | ⟨h5, h6⟩
          · exact Or.inl h5
          · exact Or.inr ⟨h5, by omega⟩
        · -- S6
          intro a bb ha hb
          rw [List.any_cons]
          rcases Classical.em (i ≤ a ∧ a < i + w ∧ j ≤ bb ∧ bb < j + h)
            with hin | hout
          · have hm20 : m2 (bb * dimu + a) = 0 := by
              rw [hm2cell a bb ha, if_pos hin]
            have hcv : Rect.covers ⟨i, j, w, h, c⟩ a bb = true := by
              rw [Rect.covers_iff]; exact hin
            rw [hcv]
            simp only [Bool.true_or, if_pos]
            rw [r6 a bb ha hb]
            split
            · rfl
            · exact hm20
          · have hmeq : m2 (bb * dimu + a) = m (bb * dimu + a) := by
              rw [hm2cell a bb ha, if_neg hout]
            have hcv : Rect.covers ⟨i, j, w, h, c⟩ a bb = false := by
              rw [← Bool.not_eq_true, Rect.covers_iff]
              simpa using hout
            rw [hcv]
            simp only [Bool.false_or]
            rw [r6 a bb ha hb, hmeq]
      · rw [if_neg hc]
        have hrec := ih (i + 1) m (by omega)
        obtain ⟨r1, r2, r3, r4, r5, r6⟩ := hrec
        refine ⟨?_, r2, r3, ?_, ?_, r6⟩
        · intro r hr
          have := r1 r hr
          exact ⟨this.1, by omega, this.2.2.1, this.2.2.2.1,
            this.2.2.2.2.1, this.2.2.2.2.2⟩
        · intro a h1 h2
          rcases Nat.eq_or_lt_of_le h1 with heq | h3
          · subst heq
            rw [r5 i j h2 hj (Or.inr ⟨rfl, by omega⟩)]
            simpa using hc
          · exact r4 a h3 h2
        · intro a bb ha hb hreg
          refine r5 a bb ha hb ?_
          rcases hreg with h5 | ⟨h5, h6⟩
          · exact Or.inl h5
          · exact Or.inr ⟨h5, by omega⟩
    · rw [scanRow, dif_neg hi]
      refine ⟨by simp, by simp, ?_, ?_, by intro a bb _ _ _; rfl, ?_⟩
      · intro a bb ha hb
        simp only [List.countP_nil]
        rw [if_neg]
        rintro ⟨h1, h2⟩
        exact h1 h2
      · intro a h1 h2
        omega
      · intro a bb ha hb
        simp

/-- The row scan emits rectangles that (1) stay inside the plane and start
at or after the scan point, (2) cover only cells whose (current) mask
value is the rectangle's nonzero value, (3) partition, with multiplicity
exactly one, the cells that the scan zeroes, (4) clear the rest of row j,
(5) leave cells above and left of the scan point untouched, and (6) return
the mask with exactly the covered cells zeroed. -/
theorem scanRow_spec (dimu dimv j : Nat) (hj : j < dimv) :
    ∀ i (m : Nat → Int),
    (∀ r ∈ (scanRow dimu dimv j m i).1,
        r.j = j ∧ i ≤ r.i ∧ 1 ≤ r.w ∧ 1 ≤ r.h ∧ r.i + r.w ≤ dimu
          ∧ r.j + r.h ≤ dimv)
    ∧ (∀ r ∈ (scanRow dimu dimv j m i).1, ∀ a bb, a < dimu → bb < dimv →
        Rect.covers r a bb = true → m (bb * dimu + a) = r.c ∧ r.c ≠ 0)
    ∧ (∀ a bb, a < dimu → bb < dimv →
        List.countP (fun r => Rect.covers r a bb) (scanRow dimu dimv j m i).1
          = if m (bb * dimu + a) ≠ 0
              ∧ (scanRow dimu dimv j m i).2 (bb * dimu + a) = 0
            then 1 else 0)
    ∧ (∀ a, i ≤ a → a < dimu → (scanRow dimu dimv j m i).2 (j * dimu + a) = 0)
    ∧ (∀ a bb, a < dimu → bb < dimv → (bb < j ∨ (bb = j ∧ a < i)) →
        (scanRow dimu dimv j m i).2 (bb * dimu + a) = m (bb * dimu + a))
    ∧ (∀ a bb, a < dimu → bb < dimv →
        (scanRow dimu dimv j m i).2 (bb * dimu + a)
          = if ((scanRow dimu dimv j m i).1.any
                (fun r => Rect.covers r a bb)) = true
            then 0 else m (bb * dimu + a)) := by
  intro i m
  exact scanRow_spec_aux dimu dimv j hj (dimu - i) i m le_rfl

theorem scanRows_spec_aux (dimu dimv : Nat) :
    ∀ fuel j (m : Nat → Int), dimv - j ≤ fuel →
    (∀ r ∈ scanRows dimu dimv m j,
        j ≤ r.j ∧ 1 ≤ r.w ∧ 1 ≤ r.h ∧ r.i + r.w ≤ dimu ∧ r.j + r.h ≤ dimv)
    ∧ (∀ r ∈ scanRows dimu dimv m j, ∀ a bb, a < dimu → bb < dimv →
        Rect.covers r a bb = true → m (bb * dimu + a) = r.c ∧ r.c ≠ 0)
    ∧ (∀ a bb, a < dimu → bb < dimv → j ≤ bb →
        List.countP (fun r => Rect.covers r a bb) (scanRows dimu dimv m j)
          = if m (bb * dimu + a) ≠ 0 then 1 else 0)
    ∧ (∀ a bb, a < dimu → bb < dimv → bb < j →
        List.countP (fun r => Rect.covers r a bb) (scanRows dimu dimv m j)
          = 0) := by
  intro fuel
  induction fuel with
  | zero =>
    intro j m hfu
    have hj : ¬ j < dimv := by omega
    rw [scanRows, if_neg hj]
    refine ⟨by simp, by simp, ?_, by simp⟩
    intro a bb ha hb hjb
    exfalso
    omega
  | succ f ih =>
    intro j m hfu
    by_cases hj : j < dimv
    · rw [scanRows]
      simp only [if_pos hj]
      obtain ⟨s1, s2, s3, s4, s5, s6⟩ := scanRow_spec dimu dimv j hj 0 m
      obtain ⟨g1, g2, g3, g4⟩ :=
        ih (j + 1) (scanRow dimu dimv j m 0).2 (by omega)
      refine ⟨?_, ?_, ?_, ?_⟩
      · intro r hr
        rcases List.mem_append.mp hr with hr2 | hr2
        · have := s1 r hr2
          exact ⟨by omega, this.2.2.1, this.2.2.2.1,
            this.2.2.2.2.1, this.2.2.2.2.2⟩
        · have := g1 r hr2
          exact ⟨by omega, this.2.1, this.2.2.1, this.2.2.2.1, this.2.2.2.2⟩
      · intro r hr a bb ha hb hcov
        rcases List.mem_append.mp hr with hr2 | hr2
        · exact s2 r hr2 a bb ha hb hcov
        · have h2 := g2 r hr2 a bb ha hb hcov
          have h6 := s6 a bb ha hb
          rcases Classical.em (((scanRow dimu dimv j m 0).1.any
              (fun r => Rect.covers r a bb)) = true) with hcv | hcv
          · rw [h6, if_pos hcv] at h2
            exact absurd rfl (h2.1 ▸ h2.2)
          · rw [h6, if_neg hcv] at h2
            exact h2
      · intro a bb ha hb hjb
        rw [List.countP_append]
        rcases Nat.eq_or_lt_of_le hjb with heq | hlt
        · -- bb = j
          subst heq
          have hrow : (scanRow dimu dimv j m 0).2 (j * dimu + a) = 0 :=
            s4 a (Nat.zero_le a) ha
          rw [s3 a j ha hb, g4 a j ha hb (by omega), Nat.add_zero]
          rcases Classical.em (m (j * dimu + a) ≠ 0) with hm | hm
          · rw [if_pos ⟨hm, hrow⟩, if_pos hm]
          · rw [if_neg (fun hx => hm hx.1), if_neg hm]
        · -- bb > j
          have hcnt2 := g3 a bb ha hb (by omega)
          have h6 := s6 a bb ha hb
          rw [s3 a bb ha hb, hcnt2]
          rcases Classical.em ((scanRow dimu dimv j m 0).2 (bb * dimu + a) = 0)
            with hz | hz
          · rw [hz]
            rcases Classical.em (m (bb * dimu + a) ≠ 0) with hm | hm
            · rw [if_pos ⟨hm, rfl⟩, if_pos hm]
              simp
            · rw [if_neg (fun hx => hm hx.1), if_neg hm]
              simp
          · have hmeq : (scanRow dimu dimv j m 0).2 (bb * dimu + a)
                = m (bb * dimu + a) := by
              rw [h6]
              split
              · rename_i hcv
                exfalso
                apply hz
                rw [h6, if_pos hcv]
              · rfl
            have hm : m (bb * dimu + a) ≠ 0 := fun hx => hz (by rw [hmeq, hx])
            rw [if_neg (fun hx => hz hx.2), if_pos (by rw [hmeq]; exact hm),
              if_pos hm]
      · intro a bb ha hb hjb
        rw [List.countP_append]
        have hz1 : List.countP (fun r => Rect.covers r a bb)
            (scanRow dimu dimv j m 0).1 = 0 := by
          rw [List.countP_eq_zero]
          intro r hr
          have hb1 := (s1 r hr).1
          intro hcov
          rw [Rect.covers_iff] at hcov
          omega
        rw [hz1, g4 a bb ha hb (by omega)]
    · rw [scanRows, if_neg hj]
      refine ⟨by simp, by simp, ?_, by simp⟩
      intro a bb ha hb hjb
      exfalso
      omega

/-- The greedy consumption of one plane: the rectangles stay inside the
plane, carry the mask value of every cell they cover (necessarily
nonzero), and cover each nonzero-mask cell exactly once and each
zero-mask cell not at all. -/
theorem scanSlice_spec (dimu dimv : Nat) (m : Nat → Int) :
    (∀ r ∈ scanSlice dimu dimv m,
        1 ≤ r.w ∧ 1 ≤ r.h ∧ r.i + r.w ≤ dimu ∧ r.j + r.h ≤ dimv)
    ∧ (∀ r ∈ scanSlice dimu dimv m, ∀ a bb, a < dimu → bb < dimv →
        Rect.covers r a bb = true → m (bb * dimu + a) = r.c ∧ r.c ≠ 0)
    ∧ (∀ a bb, a < dimu → bb < dimv →
        List.countP (fun r => Rect.covers r a bb) (scanSlice dimu dimv m)
          = if m (bb * dimu + a) ≠ 0 then 1 else 0) := by
  obtain ⟨g1, g2, g3, g4⟩ :=
    scanRows_spec_aux dimu dimv (dimv - 0) 0 m le_rfl
  exact ⟨fun r hr => ⟨(g1 r hr).2.1, (g1 r hr).2.2.1, (g1 r hr).2.2.2.1,
      (g1 r hr).2.2.2.2⟩,
    g2, fun a bb ha hb => g3 a bb ha hb (Nat.zero_le bb)⟩

/-- An emitted quad: the four vertices in the pushed winding order
(`[v1,v2,v3,v4]` for a positive mask value, `[v1,v4,v3,v2]` for a
negative one; `p1` and `p3` are opposite corners either way), the outward
normal, and `Math.abs(currentMask)` as the block type. -/
structure Face where
  p1 : Int × Int × Int
  p2 : Int × Int × Int
  p3 : Int × Int × Int
  p4 : Int × Int × Int
  normal : Int × Int × Int
  blockType : Int
deriving DecidableEq

/-- The vector with `s` in component `axis` and 0 elsewhere. -/
def normalVec (axis : Nat) (s : Int) : Int × Int × Int :=
  match axis with
  | 0 => (s, 0, 0)
  | 1 => (0, s, 0)
  | _ => (0, 0, s)

/-- Emit the face of a rectangle at sweep plane `plane`:
`v1 = x`, `v2 = x + du`, `v3 = x + du + dv`, `v4 = x + dv` with
`x[axis] = plane`, `x[u] = i`, `x[v] = j`, `du[u] = w`, `dv[v] = h`. -/
def rectToFace (axis plane : Nat) (r : Rect) : Face :=
  let v1 := meshPos axis (plane : Int) (r.i : Int) (r.j : Int)
  let v2 := meshPos axis (plane : Int) ((r.i : Int) + (r.w : Int)) (r.j : Int)
  let v3 := meshPos axis (plane : Int) ((r.i : Int) + (r.w : Int))
    ((r.j : Int) + (r.h : Int))
  let v4 := meshPos axis (plane : Int) (r.i : Int) ((r.j : Int) + (r.h : Int))
  if 0 < r.c then ⟨v1, v2, v3, v4, normalVec axis 1, r.c⟩
  else ⟨v1, v4, v3, v2, normalVec axis (-1), -r.c⟩

/-- `greedyMeshChunk(chunk)` (world.js): for each of the 3 axes, sweep all
`dims[axis] + 1` boundary planes, build the mask, greedily consume it and
emit the faces. -/
def greedyMeshChunk (c : ChunkBlocks) : List Face :=
  (List.range 3).flatMap fun axis =>
    (List.range (dims axis + 1)).flatMap fun plane =>
      (scanSlice (dims ((axis + 1) % 3)) (dims ((axis + 2) % 3))
        (maskFn c axis plane)).map (rectToFace axis plane)

/-- Component `k` of an integer triple. -/
def comp3 (t : Int × Int × Int) (k : Nat) : Int :=
  match k with
  | 0 => t.1
  | 1 => t.2.1
  | _ => t.2.2

/-- Rasterization test: does face `f` cover the unit boundary cell of axis
`axis` at plane `p`, in-plane coordinates (a, bb)?  The face must be
normal to `axis`, its opposite corners `p1`/`p3` must both lie on plane
`p`, and the cell must fall inside the rectangle they span. -/
def faceCoversCell (axis p a bb : Nat) (f : Face) : Bool :=
  decide (comp3 f.normal axis ≠ 0)
    && decide (comp3 f.p1 axis = (p : Int))
    && decide (comp3 f.p3 axis = (p : Int))
    && decide (comp3 f.p1 ((axis + 1) % 3) ≤ (a : Int))
    && decide ((a : Int) < comp3 f.p3 ((axis + 1) % 3))
    && decide (comp3 f.p1 ((axis + 2) % 3) ≤ (bb : Int))
    && decide ((bb : Int) < comp3 f.p3 ((axis + 2) % 3))

/-- The reference mask value of a boundary cell, defined purely from the
grid accessor: the two blocks adjacent to the cell (planes outside the
chunk read as air through the accessor's bounds check), zero when their
solidities agree, else the solid side's type with the sign giving the
side. -/
def refVal (c : ChunkBlocks) (axis p : Nat) (i j : Nat) : Int :=
  let posA := meshPos axis ((p : Int) - 1) (i : Int) (j : Int)
  let posB := meshPos axis (p : Int) (i : Int) (j : Int)
  let blockA := getBlockInChunk c posA.1 posA.2.1 posA.2.2
  let blockB := getBlockInChunk c posB.1 posB.2.1 posB.2.2
  if (blockA ≠ 0) = (blockB ≠ 0) then 0
  else if blockA ≠ 0 then blockA else -blockB

/-- Blocks sampled outside the swept axis range read as air. -/
theorem getBlockInChunk_oob (c : ChunkBlocks) (axis : Nat) (hax : axis < 3)
    (s i j : Int) (hs : s < 0 ∨ (dims axis : Int) ≤ s) :
    getBlockInChunk c (meshPos axis s i j).1 (meshPos axis s i j).2.1
      (meshPos axis s i j).2.2 = 0 := by
  interval_cases axis <;>
    simp only [meshPos, getBlockInChunk, dims, CHUNK_SIZE, WORLD_HEIGHT]
      at hs ⊢ <;>
    rw [if_pos (by omega)]

/-- The guarded mask entry equals the reference value: the sweep guards
force air exactly where the accessor's bounds check would. -/
theorem maskVal_eq_refVal (c : ChunkBlocks) (axis p i j : Nat)
    (hax : axis < 3) (hp : p ≤ dims axis) :
    maskVal c axis p i j = refVal c axis p i j := by
  simp only [maskVal, refVal]
  have hA : (if 1 ≤ p
      then getBlockInChunk c (meshPos axis ((p : Int) - 1) (i : Int) (j : Int)).1
        (meshPos axis ((p : Int) - 1) (i : Int) (j : Int)).2.1
        (meshPos axis ((p : Int) - 1) (i : Int) (j : Int)).2.2
      else 0)
      = getBlockInChunk c (meshPos axis ((p : Int) - 1) (i : Int) (j : Int)).1
        (meshPos axis ((p : Int) - 1) (i : Int) (j : Int)).2.1
        (meshPos axis ((p : Int) - 1) (i : Int) (j : Int)).2.2 := by
    by_cases h1 : 1 ≤ p
    · rw [if_pos h1]
    · rw [if_neg h1,
        getBlockInChunk_oob c axis hax _ _ _ (Or.inl (by omega))]
  have hB : (if p < dims axis
      then getBlockInChunk c (meshPos axis (p : Int) (i : Int) (j : Int)).1
        (meshPos axis (p : Int) (i : Int) (j : Int)).2.1
        (meshPos axis (p : Int) (i : Int) (j : Int)).2.2
      else 0)
      = getBlockInChunk c (meshPos axis (p : Int) (i : Int) (j : Int)).1
        (meshPos axis (p : Int) (i : Int) (j : Int)).2.1
        (meshPos axis (p : Int) (i : Int) (j : Int)).2.2 := by
    by_cases h1 : p < dims axis
    · rw [if_pos h1]
    · rw [if_neg h1,
        getBlockInChunk_oob c axis hax _ _ _ (Or.inr (by omega))]
  rw [hA, hB]

theorem faceCovers_rectToFace (axis p a bb : Nat) (hax : axis < 3) (r : Rect) :
    faceCoversCell axis p a bb (rectToFace axis p r) = Rect.covers r a bb := by
  rw [Bool.eq_iff_iff]
  interval_cases axis <;>
  · rw [rectToFace]
    split <;>
      simp [faceCoversCell, Rect.covers, comp3, meshPos, normalVec,
        and_assoc] <;>
      omega

theorem faceCovers_wrong_axis (axis axis2 p p2 a bb : Nat) (hax : axis < 3)
    (hax2 : axis2 < 3) (hne : axis2 ≠ axis) (r : Rect) :
    faceCoversCell axis p a bb (rectToFace axis2 p2 r) = false := by
  rw [← Bool.not_eq_true]
  interval_cases axis <;> interval_cases axis2 <;> first
  | exact absurd rfl hne
  | · rw [rectToFace]
      split <;>
        simp [faceCoversCell, comp3, meshPos, normalVec]

theorem faceCovers_wrong_plane (axis p p2 a bb : Nat) (hax : axis < 3)
    (hne : p2 ≠ p) (r : Rect) :
    faceCoversCell axis p a bb (rectToFace axis p2 r) = false := by
  rw [← Bool.not_eq_true]
  interval_cases axis <;>
  · rw [rectToFace]
    split <;>
      simp only [faceCoversCell, comp3, meshPos, normalVec,
        Bool.and_eq_true, decide_eq_true_eq] <;>
      omega

theorem sum_map_zero (f : Nat → Nat) (n : Nat)
    (h : ∀ p, p < n → f p = 0) : ((List.range n).map f).sum = 0 := by
  apply List.sum_eq_zero
  intro x hx
  obtain ⟨p, hp, rfl⟩ := List.mem_map.mp hx
  exact h p (List.mem_range.mp hp)

theorem sum_map_single (f : Nat → Nat) (n t : Nat) (ht : t < n)
    (h0 : ∀ p, p < n → p ≠ t → f p = 0) :
    ((List.range n).map f).sum = f t := by
  induction n with
  | zero => omega
  | succ k ih =>
    rw [List.range_succ, List.map_append, List.sum_append]
    rcases Nat.lt_or_ge t k with hlt | hge
    · rw [ih hlt (fun p hp hne => h0 p (by omega) hne)]
      simp [h0 k (by omega) (by omega)]
    · have : t = k := by omega
      subst this
      rw [sum_map_zero f t (fun p hp => h0 p (by omega) (by omega))]
      simp

theorem countP_flatMap {α β : Type} (l : List α) (f : α → List β)
    (pr : β → Bool) :
    (l.flatMap f).countP pr = (l.map (fun x => (f x).countP pr)).sum := by
  induction l with
  | nil => simp
  | cons x xs ih => simp [List.flatMap_cons, List.countP_append, ih]

/-- The mask entry at the cell index used by the scan equals the reference
value of the cell. -/
theorem maskFn_cell (c : ChunkBlocks) (axis p a bb : Nat) (hax : axis < 3)
    (hp : p ≤ dims axis) (ha : a < dims ((axis + 1) % 3)) :
    maskFn c axis p (bb * dims ((axis + 1) % 3) + a) = refVal c axis p a bb := by
  rw [maskFn]
  rw [idx_mod _ a bb ha, idx_div _ a bb ha]
  exact maskVal_eq_refVal c axis p a bb hax hp

/-- C3: rasterizing the emitted faces of a chunk gives exactly the
axis-boundary cells whose two adjacent blocks (open chunk boundaries
reading as air) differ in solidity — each such cell once, no cell twice,
and in particular nothing at a boundary between two solid blocks (of any
types, equal or different, where `refVal` is 0); every face covering a
cell carries the solid side's block type and the outward normal pointing
from the solid side. -/
theorem greedyMesh_raster (c : ChunkBlocks) (axis p a bb : Nat)
    (hax : axis < 3) (hp : p ≤ dims axis)
    (ha : a < dims ((axis + 1) % 3)) (hb : bb < dims ((axis + 2) % 3)) :
    ((greedyMeshChunk c).countP (faceCoversCell axis p a bb)
      = if refVal c axis p a bb ≠ 0 then 1 else 0)
    ∧ (∀ f ∈ greedyMeshChunk c, faceCoversCell axis p a bb f = true →
        f.blockType = (if 0 < refVal c axis p a bb then refVal c axis p a bb
          else -refVal c axis p a bb)
        ∧ f.normal = normalVec axis
            (if 0 < refVal c axis p a bb then 1 else -1)) := by
  constructor
  · rw [greedyMeshChunk, countP_flatMap]
    rw [sum_map_single _ 3 axis hax]
    · rw [countP_flatMap]
      rw [sum_map_single _ (dims axis + 1) p (by omega)]
      · rw [List.countP_map]
        have hpc : (faceCoversCell axis p a bb ∘ rectToFace axis p)
            = fun r => Rect.covers r a bb := by
          funext r
          exact faceCovers_rectToFace axis p a bb hax r
        rw [hpc]
        obtain ⟨w1, w2, w3⟩ := scanSlice_spec (dims ((axis + 1) % 3))
          (dims ((axis + 2) % 3)) (maskFn c axis p)
        rw [w3 a bb ha hb, maskFn_cell c axis p a bb hax hp ha]
      · intro p2 hp2 hne
        rw [List.countP_map, List.countP_eq_zero]
        intro r hr hcv
        rw [Function.comp_apply, faceCovers_wrong_plane axis p p2 a bb hax hne r]
          at hcv
        exact Bool.false_ne_true hcv
    · intro ax2 hax2 hne
      rw [countP_flatMap, sum_map_zero]
      intro p2 hp2
      rw [List.countP_map, List.countP_eq_zero]
      intro r hr hcv
      rw [Function.comp_apply,
        faceCovers_wrong_axis axis ax2 p p2 a bb hax hax2 hne r] at hcv
      exact Bool.false_ne_true hcv
  · intro f hf hcov
    rw [greedyMeshChunk] at hf
    obtain ⟨ax2, hax2, hf2⟩ := List.mem_flatMap.mp hf
    obtain ⟨p2, hp2, hf3⟩ := List.mem_flatMap.mp hf2
    obtain ⟨r, hr, rfl⟩ := List.mem_map.mp hf3
    have hax2' : ax2 < 3 := List.mem_range.mp hax2
    have hp2' : p2 < dims ax2 + 1 := List.mem_range.mp hp2
    by_cases heq : ax2 = axis
    · subst heq
      by_cases heqp : p2 = p
      · subst heqp
        rw [faceCovers_rectToFace ax2 p2 a bb hax2' r] at hcov
        obtain ⟨w1, w2, w3⟩ := scanSlice_spec (dims ((ax2 + 1) % 3))
          (dims ((ax2 + 2) % 3)) (maskFn c ax2 p2)
        have hv := w2 r hr a bb ha hb hcov
        rw [maskFn_cell c ax2 p2 a bb hax2' hp ha] at hv
        simp only [rectToFace]
        rw [hv.1]
        rcases Classical.em (0 < r.c) with hcpos | hcneg
        · rw [if_pos hcpos, if_pos hcpos, if_pos hcpos]
          exact ⟨rfl, rfl⟩
        · rw [if_neg hcneg, if_neg hcneg, if_neg hcneg]
          exact ⟨rfl, rfl⟩
      · rw [faceCovers_wrong_plane ax2 p p2 a bb hax2' heqp r] at hcov
        exact absurd hcov Bool.false_ne_true
    · rw [faceCovers_wrong_axis axis ax2 p p2 a bb hax hax2' heq r] at hcov
      exact absurd hcov Bool.false_ne_true

theorem greedyMesh_raster_witness :
    ((0 : Nat) < 3 ∧ (0 : Nat) ≤ dims 0 ∧ (0 : Nat) < dims ((0 + 1) % 3)
      ∧ (0 : Nat) < dims ((0 + 2) % 3))
    ∧ (((greedyMeshChunk (fun _ => 1)).countP (faceCoversCell 0 0 0 0)
        = if refVal (fun _ => 1) 0 0 0 0 ≠ 0 then 1 else 0)
      ∧ (∀ f ∈ greedyMeshChunk (fun _ => 1),
          faceCoversCell 0 0 0 0 f = true →
          f.blockType = (if 0 < refVal (fun _ => 1) 0 0 0 0
            then refVal (fun _ => 1) 0 0 0 0
            else -refVal (fun _ => 1) 0 0 0 0)
          ∧ f.normal = normalVec 0
              (if 0 < refVal (fun _ => 1) 0 0 0 0 then 1 else -1))) :=
  ⟨⟨by decide, by decide, by decide, by decide⟩,
   greedyMesh_raster (fun _ => 1) 0 0 0 0 (by decide) (by decide)
     (by decide) (by decide)⟩

theorem cell_lt (dimu dimv a bb : Nat) (ha : a < dimu) (hb : bb < dimv) :
    bb * dimu + a < dimu * dimv := by
  calc bb * dimu + a < (bb + 1) * dimu := by rw [Nat.add_mul]; omega
  _ ≤ dimv * dimu := Nat.mul_le_mul_right dimu (by omega)
  _ = dimu * dimv := Nat.mul_comm _ _

/-- On an in-range-constant nonzero mask, the width growth reaches the full
row. -/
theorem growWidth_const (m : Nat → Int) (c : Int) (dimu dimv : Nat)
    (hv : 1 ≤ dimv) (hm : ∀ n, n < dimu * dimv → m n = c) :
    ∀ w, 1 ≤ w → w ≤ dimu → growWidth m c dimu 0 0 w = dimu := by
  suffices hs : ∀ fuel w, dimu - w ≤ fuel → 1 ≤ w → w ≤ dimu →
      growWidth m c dimu 0 0 w = dimu by
    intro w h1 h2
    exact hs (dimu - w) w le_rfl h1 h2
  intro fuel
  induction fuel with
  | zero =>
    intro w hfu h1 h2
    have hw : w = dimu := by omega
    rw [growWidth, if_neg (by omega)]
    exact hw
  | succ f ih =>
    intro w hfu h1 h2
    rcases Nat.eq_or_lt_of_le h2 with heq | hlt
    · rw [growWidth, if_neg (by omega)]
      exact heq
    · have hmw : m (0 + w) = c := by
        rw [Nat.zero_add]
        exact hm w (lt_of_lt_of_le hlt (Nat.le_mul_of_pos_right dimu hv))
      rw [growWidth, if_pos ⟨by omega, hmw⟩]
      exact ih (w + 1) (by omega) (by omega) (by omega)

/-- On an in-range-constant nonzero mask, the height growth reaches the
full column count. -/
theorem growHeight_const (m : Nat → Int) (c : Int) (dimu dimv : Nat)
    (hm : ∀ n, n < dimu * dimv → m n = c) :
    ∀ h, 1 ≤ h → h ≤ dimv → growHeight m c dimu dimv 0 dimu 0 h = dimv := by
  suffices hs : ∀ fuel h, dimv - h ≤ fuel → 1 ≤ h → h ≤ dimv →
      growHeight m c dimu dimv 0 dimu 0 h = dimv by
    intro h h1 h2
    exact hs (dimv - h) h le_rfl h1 h2
  intro fuel
  induction fuel with
  | zero =>
    intro h hfu h1 h2
    have hh : h = dimv := by omega
    rw [growHeight, if_neg (by omega)]
    exact hh
  | succ f ih =>
    intro h hfu h1 h2
    rcases Nat.eq_or_lt_of_le h2 with heq | hlt
    · rw [growHeight, if_neg (by omega)]
      exact heq
    · have hfit : rowFits m c dimu 0 h dimu = true := by
        rw [rowFits, List.all_eq_true]
        intro k hk
        have hk2 := List.mem_range.mp hk
        have : (0 : Nat) + k + h * dimu = h * dimu + k := by omega
        rw [this, beq_iff_eq]
        exact hm (h * dimu + k) (cell_lt dimu dimv k h hk2 hlt)
      rw [growHeight, if_pos ⟨by omega, hfit⟩]
      exact ih (h + 1) (by omega) (by omega) (by omega)

/-- A row scan over a row that is entirely zero emits nothing and keeps
the mask. -/
theorem scanRow_zero (dimu dimv j : Nat) (m : Nat → Int)
    (hrow : ∀ a, a < dimu → m (j * dimu + a) = 0) :
    ∀ i, scanRow dimu dimv j m i = ([], m) := by
  suffices hs : ∀ fuel i, dimu - i ≤ fuel → scanRow dimu dimv j m i = ([], m) by
    intro i
    exact hs (dimu - i) i le_rfl
  intro fuel
  induction fuel with
  | zero =>
    intro i hfu
    rw [scanRow, dif_neg (by omega)]
  | succ f ih =>
    intro i hfu
    by_cases hi : i < dimu
    · rw [scanRow]
      simp only [dif_pos hi]
      rw [if_neg (by simpa using hrow i hi)]
      exact ih (i + 1) (by omega)
    · rw [scanRow, dif_neg hi]

/-- Scanning rows of an in-range-zero mask emits nothing. -/
theorem scanRows_zero (dimu dimv : Nat) (m : Nat → Int)
    (hm : ∀ n, n < dimu * dimv → m n = 0) :
    ∀ j, scanRows dimu dimv m j = [] := by
  suffices hs : ∀ fuel j, dimv - j ≤ fuel → scanRows dimu dimv m j = [] by
    intro j
    exact hs (dimv - j) j le_rfl
  intro fuel
  induction fuel with
  | zero =>
    intro j hfu
    rw [scanRows, if_neg (by omega)]
  | succ f ih =>
    intro j hfu
    by_cases hj : j < dimv
    · rw [scanRows]
      simp only [if_pos hj]
      rw [scanRow_zero dimu dimv j m
        (fun a ha => hm (j * dimu + a) (cell_lt dimu dimv a j ha hj)) 0]
      rw [ih (j + 1) (by omega)]
      rfl
    · rw [scanRows, if_neg hj]

/-- Greedy consumption of an in-range-zero mask emits nothing. -/
theorem scanSlice_zero (dimu dimv : Nat) (m : Nat → Int)
    (hm : ∀ n, n < dimu * dimv → m n = 0) :
    scanSlice dimu dimv m = [] :=
  scanRows_zero dimu dimv m hm 0

/-- Greedy consumption of an in-range-constant nonzero mask collapses to
the single full-plane rectangle. -/
theorem scanSlice_const (dimu dimv : Nat) (m : Nat → Int) (c : Int)
    (hu : 1 ≤ dimu) (hv : 1 ≤ dimv) (hc : c ≠ 0)
    (hm : ∀ n, n < dimu * dimv → m n = c) :
    scanSlice dimu dimv m = [⟨0, 0, dimu, dimv, c⟩] := by
  have hm0 : m 0 = c := hm 0 (by positivity)
  have hw : growWidth m (m (0 * dimu + 0)) dimu (0 * dimu + 0) 0 1 = dimu := by
    simp only [Nat.zero_mul, Nat.zero_add]
    rw [hm0]
    exact growWidth_const m c dimu dimv hv hm 1 le_rfl hu
  rw [scanSlice, scanRows]
  simp only [if_pos (by omega : 0 < dimv)]
  rw [scanRow]
  simp only [dif_pos (by omega : 0 < dimu)]
  rw [if_pos (by simp only [Nat.zero_mul, Nat.zero_add]; rw [hm0]; exact hc)]
  simp only [Nat.zero_mul, Nat.zero_add, hm0]
  rw [growWidth_const m c dimu dimv hv hm 1 le_rfl hu]
  rw [growHeight_const m c dimu dimv hm 1 le_rfl hv]
  have hz : ∀ n, n < dimu * dimv →
      zeroRect m dimu 0 0 dimu dimv n = 0 := by
    intro n hn
    rw [zeroRect, if_pos]
    have h1 : n % dimu < dimu := Nat.mod_lt n (by omega)
    have h2 : n / dimu < dimv := by
      rw [Nat.div_lt_iff_lt_mul (by omega : 0 < dimu), Nat.mul_comm dimv dimu]
      exact hn
    exact ⟨Nat.zero_le _, by omega, Nat.zero_le _, by omega⟩
  rw [scanRow_zero dimu dimv 0 (zeroRect m dimu 0 0 dimu dimv)
    (fun a ha => hz (0 * dimu + a) (by
      simp only [Nat.zero_mul, Nat.zero_add]
      exact lt_of_lt_of_le ha (Nat.le_mul_of_pos_right dimu hv))) dimu]
  rw [scanRows_zero dimu dimv (zeroRect m dimu 0 0 dimu dimv) hz 1]
  rfl

theorem dims_pos (k : Nat) : 1 ≤ dims k := by
  rcases k with _ | _ | k <;> simp [dims, CHUNK_SIZE, WORLD_HEIGHT]

/-- On a uniform chunk every mask entry is `-b` at the lower boundary plane,
`b` at the upper boundary plane, and `0` on every interior plane. -/
theorem maskVal_uniform (b : Nat) (hb : b ≠ 0) (axis p i j : Nat)
    (hax : axis < 3) (hp : p ≤ dims axis)
    (hi : i < dims ((axis + 1) % 3)) (hj : j < dims ((axis + 2) % 3)) :
    maskVal (fun _ => b) axis p i j
      = if p = 0 then -(b : Int) else if p = dims axis then (b : Int) else 0 := by
  have hbz : (b : Int) ≠ 0 := Int.natCast_ne_zero.mpr hb
  rcases (by omega : axis = 0 ∨ axis = 1 ∨ axis = 2) with h | h | h <;> subst h
  · have hi' : i < 64 := hi
    have hj' : j < 16 := hj
    have hp' : p ≤ 16 := hp
    have hA : ∀ q : Nat, 1 ≤ q → q ≤ 16 →
        getBlockInChunk (fun _ => b) ((q : Int) - 1) (i : Int) (j : Int) = b := by
      intro q h1 h2
      rw [getBlockInChunk, if_neg (by simp only [CHUNK_SIZE, WORLD_HEIGHT]; omega)]
    have hB : ∀ q : Nat, q < 16 →
        getBlockInChunk (fun _ => b) (q : Int) (i : Int) (j : Int) = b := by
      intro q hq
      rw [getBlockInChunk, if_neg (by simp only [CHUNK_SIZE, WORLD_HEIGHT]; omega)]
    simp only [maskVal, meshPos, show dims 0 = 16 from rfl]
    by_cases hp0 : p = 0
    · subst hp0
      rw [if_neg (by omega : ¬ (1 : Nat) ≤ 0), if_pos (by omega : (0 : Nat) < 16),
        hB 0 (by omega)]
      simp [hbz]
    · by_cases hpd : p = 16
      · subst hpd
        rw [if_pos (by omega : (1 : Nat) ≤ 16), hA 16 (by omega) (by omega),
          if_neg (by omega : ¬ (16 : Nat) < 16)]
        simp [hbz]
      · rw [if_pos (by omega : 1 ≤ p), hA p (by omega) (by omega),
          if_pos (by omega : p < 16), hB p (by omega)]
        simp [hbz, hp0, hpd]
  · have hi' : i < 16 := hi
    have hj' : j < 16 := hj
    have hp' : p ≤ 64 := hp
    have hA : ∀ q : Nat, 1 ≤ q → q ≤ 64 →
        getBlockInChunk (fun _ => b) (j : Int) ((q : Int) - 1) (i : Int) = b := by
      intro q h1 h2
      rw [getBlockInChunk, if_neg (by simp only [CHUNK_SIZE, WORLD_HEIGHT]; omega)]
    have hB : ∀ q : Nat, q < 64 →
        getBlockInChunk (fun _ => b) (j : Int) (q : Int) (i : Int) = b := by
      intro q hq
      rw [getBlockInChunk, if_neg (by simp only [CHUNK_SIZE, WORLD_HEIGHT]; omega)]
    simp only [maskVal, meshPos, show dims 1 = 64 from rfl]
    by_cases hp0 : p = 0
    · subst hp0
      rw [if_neg (by omega : ¬ (1 : Nat) ≤ 0), if_pos (by omega : (0 : Nat) < 64),
        hB 0 (by omega)]
      simp [hbz]
    · by_cases hpd : p = 64
      · subst hpd
        rw [if_pos (by omega : (1 : Nat) ≤ 64), hA 64 (by omega) (by omega),
          if_neg (by omega : ¬ (64 : Nat) < 64)]
        simp [hbz]
      · rw [if_pos (by omega : 1 ≤ p), hA p (by omega) (by omega),
          if_pos (by omega : p < 64), hB p (by omega)]
        simp [hbz, hp0, hpd]
  · have hi' : i < 16 := hi
    have hj' : j < 64 := hj
    have hp' : p ≤ 16 := hp
    have hA : ∀ q : Nat, 1 ≤ q → q ≤ 16 →
        getBlockInChunk (fun _ => b) (i : Int) (j : Int) ((q : Int) - 1) = b := by
      intro q h1 h2
      rw [getBlockInChunk, if_neg (by simp only [CHUNK_SIZE, WORLD_HEIGHT]; omega)]
    have hB : ∀ q : Nat, q < 16 →
        getBlockInChunk (fun _ => b) (i : Int) (j : Int) (q : Int) = b := by
      intro q hq
      rw [getBlockInChunk, if_neg (by simp only [CHUNK_SIZE, WORLD_HEIGHT]; omega)]
    simp only [maskVal, meshPos, show dims 2 = 16 from rfl]
    by_cases hp0 : p = 0
    · subst hp0
      rw [if_neg (by omega : ¬ (1 : Nat) ≤ 0), if_pos (by omega : (0 : Nat) < 16),
        hB 0 (by omega)]
      simp [hbz]
    · by_cases hpd : p = 16
      · subst hpd
        rw [if_pos (by omega : (1 : Nat) ≤ 16), hA 16 (by omega) (by omega),
          if_neg (by omega : ¬ (16 : Nat) < 16)]
        simp [hbz]
      · rw [if_pos (by omega : 1 ≤ p), hA p (by omega) (by omega),
          if_pos (by omega : p < 16), hB p (by omega)]
        simp [hbz, hp0, hpd]

/-- The mask-array view of `maskVal_uniform`. -/
theorem maskFn_uniform (b : Nat) (hb : b ≠ 0) (axis p : Nat)
    (hax : axis < 3) (hp : p ≤ dims axis) (n : Nat)
    (hn : n < dims ((axis + 1) % 3) * dims ((axis + 2) % 3)) :
    maskFn (fun _ => b) axis p n
      = if p = 0 then -(b : Int) else if p = dims axis then (b : Int) else 0 := by
  have hdu : 0 < dims ((axis + 1) % 3) := dims_pos _
  have hdiv : n / dims ((axis + 1) % 3) < dims ((axis + 2) % 3) := by
    rw [Nat.div_lt_iff_lt_mul hdu]
    exact lt_of_lt_of_eq hn (Nat.mul_comm _ _)
  exact maskVal_uniform b hb axis p _ _ hax hp (Nat.mod_lt n hdu) hdiv

theorem flatMap_range_head {α : Type} (f : Nat → List α) :
    ∀ k, (∀ p, 1 ≤ p → p ≤ k → f p = []) →
      (List.range (k + 1)).flatMap f = f 0 := by
  intro k
  induction k with
  | zero =>
    intro _
    simp [List.range_succ]
  | succ m ih =>
    intro hmid
    rw [List.range_succ, List.flatMap_append,
      ih (fun p h1 h2 => hmid p h1 (by omega))]
    simp [hmid (m + 1) (by omega) le_rfl]

/-- A sweep whose interior planes emit nothing reduces to its two boundary
planes. -/
theorem flatMap_range_boundary {α : Type} (f : Nat → List α) (d : Nat)
    (hd : 1 ≤ d) (hmid : ∀ p, 1 ≤ p → p < d → f p = []) :
    (List.range (d + 1)).flatMap f = f 0 ++ f d := by
  obtain ⟨k, rfl⟩ : ∃ k, d = k + 1 := ⟨d - 1, by omega⟩
  rw [List.range_succ, List.flatMap_append,
    flatMap_range_head f k (fun p h1 h2 => hmid p h1 (by omega))]
  simp

/-- One axis of the greedy sweep over a uniform chunk: only the two
boundary planes produce output, and each produces the single full-plane
face. -/
theorem uniform_axis_faces (b : Nat) (hb : b ≠ 0) (axis : Nat)
    (haxlt : axis < 3) :
    (List.range (dims axis + 1)).flatMap (fun plane =>
      (scanSlice (dims ((axis + 1) % 3)) (dims ((axis + 2) % 3))
        (maskFn (fun _ => b) axis plane)).map (rectToFace axis plane))
    = [rectToFace axis 0
        ⟨0, 0, dims ((axis + 1) % 3), dims ((axis + 2) % 3), -(b : Int)⟩,
       rectToFace axis (dims axis)
        ⟨0, 0, dims ((axis + 1) % 3), dims ((axis + 2) % 3), (b : Int)⟩] := by
  have hbz : (b : Int) ≠ 0 := Int.natCast_ne_zero.mpr hb
  have hda : 1 ≤ dims axis := dims_pos axis
  rw [flatMap_range_boundary _ _ hda (fun p h1 h2 => by
    rw [scanSlice_zero _ _ _ (fun n hn => by
      rw [maskFn_uniform b hb axis p haxlt (by omega) n hn,
        if_neg (by omega : ¬ p = 0), if_neg (by omega : ¬ p = dims axis)])]
    rfl)]
  rw [scanSlice_const _ _ _ (-(b : Int)) (dims_pos _) (dims_pos _)
    (neg_ne_zero.mpr hbz) (fun n hn => by
      rw [maskFn_uniform b hb axis 0 haxlt (Nat.zero_le _) n hn, if_pos rfl])]
  rw [scanSlice_const _ _ _ ((b : Int)) (dims_pos _) (dims_pos _)
    hbz (fun n hn => by
      rw [maskFn_uniform b hb axis (dims axis) haxlt le_rfl n hn,
        if_neg (by omega : ¬ dims axis = 0), if_pos rfl])]
  rfl

/-- C4: for every chunk whose grid is uniformly filled with one solid
(non-air) block type `b`, `greedyMeshChunk` returns exactly 6 faces, one
per chunk-boundary plane, each the single rectangle covering the full
16 x 64 (x-planes), 16 x 16 (y-planes) or 16 x 64 (z-planes) extent of its
plane, carrying the block type and the outward unit normal. -/
theorem greedyMesh_uniform (b : Nat) (hb : b ≠ 0) :
    greedyMeshChunk (fun _ => b)
      = [⟨(0, 0, 0), (0, 0, 16), (0, 64, 16), (0, 64, 0), (-1, 0, 0), (b : Int)⟩,
         ⟨(16, 0, 0), (16, 64, 0), (16, 64, 16), (16, 0, 16), (1, 0, 0), (b : Int)⟩,
         ⟨(0, 0, 0), (16, 0, 0), (16, 0, 16), (0, 0, 16), (0, -1, 0), (b : Int)⟩,
         ⟨(0, 64, 0), (0, 64, 16), (16, 64, 16), (16, 64, 0), (0, 1, 0), (b : Int)⟩,
         ⟨(0, 0, 0), (0, 64, 0), (16, 64, 0), (16, 0, 0), (0, 0, -1), (b : Int)⟩,
         ⟨(0, 0, 16), (16, 0, 16), (16, 64, 16), (0, 64, 16), (0, 0, 1), (b : Int)⟩] := by
  have hbpos : (0 : Int) < (b : Int) := by omega
  have hbneg : ¬ (0 : Int) < -(b : Int) := by omega
  rw [greedyMeshChunk]
  rw [show (List.range 3) = [0, 1, 2] from rfl]
  simp only [List.flatMap_cons, List.flatMap_nil, List.append_nil]
  rw [uniform_axis_faces b hb 0 (by omega), uniform_axis_faces b hb 1 (by omega),
    uniform_axis_faces b hb 2 (by omega)]
  simp [rectToFace, meshPos, normalVec, dims, CHUNK_SIZE, WORLD_HEIGHT,
    hbpos, hbneg, show ¬ (b : Int) < 0 by omega]

/-- Witness for C4: the uniform stone chunk (block type 1). -/
theorem greedyMesh_uniform_witness :
    (1 : Nat) ≠ 0 ∧ greedyMeshChunk (fun _ => (1 : Nat))
      = [⟨(0, 0, 0), (0, 0, 16), (0, 64, 16), (0, 64, 0), (-1, 0, 0), ((1 : Nat) : Int)⟩,
         ⟨(16, 0, 0), (16, 64, 0), (16, 64, 16), (16, 0, 16), (1, 0, 0), ((1 : Nat) : Int)⟩,
         ⟨(0, 0, 0), (16, 0, 0), (16, 0, 16), (0, 0, 16), (0, -1, 0), ((1 : Nat) : Int)⟩,
         ⟨(0, 64, 0), (0, 64, 16), (16, 64, 16), (16, 64, 0), (0, 1, 0), ((1 : Nat) : Int)⟩,
         ⟨(0, 0, 0), (0, 64, 0), (16, 64, 0), (16, 0, 0), (0, 0, -1), ((1 : Nat) : Int)⟩,
         ⟨(0, 0, 16), (16, 0, 16), (16, 64, 16), (0, 64, 16), (0, 0, 1), ((1 : Nat) : Int)⟩] :=
  ⟨by decide, greedyMesh_uniform 1 (by decide)⟩
